import Mathlib

/-! # A user-space round-robin thread scheduler with counting semaphores (`thread.c`)

Shallow embedding of the scheduler bookkeeping of `src/thread.c`.

* The file-scope variables of `thread.c` are the fields of `Sched`; every library
  function is a function on `Sched`.
* C `int` values (identifiers, handles, counters) are `Int` values in the range
  `INT_MIN .. INT_MAX`.  The `++` and `--` on a semaphore count wrap around at the
  limits (`wrap_int`); `tid_count++` and `sem_count++` are executed only below the
  table capacities and are exact.
* A function returns `none` (`Outcome.fault`) when the C code performs a
  memory-unsafe table access (an array index outside its bounds, a NULL or released
  pointer dereferenced) or hands a stack region to `makecontext` that is too small.
* `context_swap` passes an uninitialised pointer to `getcontext` and `swapcontext`:
  nothing is defined from there on.  A function that reaches it has the outcome
  `Outcome.swap s`, where `s` is the bookkeeping written before the call; it never
  counts as a return.
* Allocation (`malloc`) of a positive number of bytes and `getcontext` on a control
  block are taken to succeed.
* `thread.h` and `queue.h` are not among the sources: their constants and the
  queue operations are modelled below and marked as such.
-/

namespace Thread

/-! ## Data model -/

/-- Fiber states named in `thread.c` (`RUNNABLE`, `RUNNING`, `BLOCKED`, `EXIT`). -/
inductive ThreadState where
  | RUNNABLE
  | RUNNING
  | BLOCKED
  | EXIT
deriving DecidableEq, Repr

/-- Error codes: `typedef enum {ERR_THREAD_MAX, ERR_SEM_MAX} thread_err_t;` -/
inductive thread_err_t where
  | ERR_THREAD_MAX
  | ERR_SEM_MAX
deriving DecidableEq, Repr

/-- Numeric value of an enumerator (C numbers them from 0 in declaration order). -/
def thread_err_t.toInt : thread_err_t → Int
  | .ERR_THREAD_MAX => 0
  | .ERR_SEM_MAX => 1

/-- The sentinel `#define MAIN_TID -1`. -/
def MAIN_TID : Int := -1

/-- The constant `#define MAX_SEMAPHORES 100`. -/
def MAX_SEMAPHORES : Int := 100

/-- Modelled from the spec: `MAX_THREADS` is defined in `thread.h`, which is not among
the sources.  The spec gives a fixed capacity of 1000 slots, and the comment above
`cb_table` in `thread.c` says the library supports 1000 threads. -/
def MAX_THREADS : Int := 1000

/-- The least value of a C `int` (32 bits). -/
def INT_MIN : Int := -2147483648

/-- The greatest value of a C `int` (32 bits). -/
def INT_MAX : Int := 2147483647

/-- The result of `int` arithmetic as the machine computes it: two's-complement
wrap-around into `INT_MIN .. INT_MAX`. -/
def wrap_int (x : Int) : Int := (x + 2147483648) % 4294967296 - 2147483648

/-- Constants that `thread.c` takes from elsewhere.  `THREAD_NAME_LEN` is defined in
`thread.h` (not among the sources) and is the size of the name array, so it is
positive.  `MIN_STACK` is the least number of bytes of a stack region inside which
`makecontext` can lay out the initial frame of a fiber; it depends on the platform and
is positive. -/
structure Env where
  THREAD_NAME_LEN : Nat
  name_len_pos : 0 < THREAD_NAME_LEN
  MIN_STACK : Int
  min_stack_pos : 0 < MIN_STACK

/-- Modelled from the spec: the queue type of `queue.h` (not among the sources), an
ordered FIFO sequence of fiber identifiers. -/
abbrev Queue := List Int

/-- Modelled from the spec: `queue_create` of `queue.h`, a new empty queue. -/
def queue_create : Queue := []

/-- Modelled from the spec: `enqueue` of `queue.h`, appends at the tail. -/
def enqueue (q : Queue) (x : Int) : Queue := q ++ [x]

/-- Modelled from the spec: `dequeue` of `queue.h`, pops the head (the earliest entry). -/
def dequeue : Queue → Option (Int × Queue)
  | [] => none
  | x :: q => some (x, q)

/-- Modelled from the spec: `queue_size` of `queue.h`, the number of entries. -/
def queue_size (q : Queue) : Int := q.length

/-- The control block `thread_control_block` (declared in `thread.h`): the fields that
`thread.c` assigns.  A function pointer is a number; the saved context is the stack
size and the entry function it was made from. -/
structure thread_control_block where
  thread_name : List Char
  state : ThreadState
  func : Nat
  stack_size : Int
deriving DecidableEq, Repr

/-- The semaphore record `sem_t`: `init`, `count` (both `int`) and `wait_queue`. -/
structure sem_t where
  init : Int
  count : Int
  wait_queue : Queue
deriving DecidableEq, Repr

/-- One entry of `sem_table`: a NULL pointer, a pointer to a live semaphore, or a
pointer whose target `destroy_semaphore` has released. -/
inductive SemSlot where
  | null
  | live (sem : sem_t)
  | freed
deriving DecidableEq, Repr

/-- The timer value `struct itimerval` (seconds and microseconds of interval and value). -/
structure itimerval where
  interval_sec : Int
  interval_usec : Int
  value_sec : Int
  value_usec : Int
deriving DecidableEq, Repr

/-- Lines printed by `destroy_semaphore`. -/
inductive Msg where
  | error_waiting (semaphore : Int)
  | warning_not_signalled (semaphore : Int)
deriving DecidableEq, Repr

/-- The file-scope state of `thread.c`. `sigalrm_handler` records that `switch_thread`
is installed for `SIGALRM`, `itimer_real` the setting of the real-time interval timer
that is in force (`none` when the timer is not armed), and `console` what was
printed. -/
structure Sched where
  thread_errno : thread_err_t
  current_tid : Int
  tid_count : Int
  sem_count : Int
  quantum_ns : Int
  cb_table : Int → Option thread_control_block
  sem_table : Int → SemSlot
  run_queue : Option Queue
  tval : itimerval
  sigalrm_handler : Bool
  itimer_real : Option itimerval
  console : List Msg

/-- What an `int` function hands back: a value, or nothing definite when control
reaches the closing brace without a `return` statement. -/
inductive RetVal where
  | value (v : Int)
  | indeterminate
deriving DecidableEq, Repr

/-- How a call of a `void` library function ends: it returned with bookkeeping `s`
(`done`); or it reached `context_swap` with bookkeeping `s` (`swap`), from where nothing
is defined; or it made a memory-unsafe table access (`fault`). -/
inductive Outcome where
  | done (s : Sched)
  | swap (s : Sched)
  | fault

/-- The bookkeeping with which a call returned. -/
def Outcome.returned : Outcome → Option Sched
  | .done s => some s
  | _ => none

/-- The bookkeeping with which a call entered `context_swap`. -/
def Outcome.entered_swap : Outcome → Option Sched
  | .swap s => some s
  | _ => none

/-- The bookkeeping a call wrote, whether it returned or entered `context_swap`. -/
def Outcome.state : Outcome → Option Sched
  | .done s => some s
  | .swap s => some s
  | .fault => none

/-- Applies `f` to the bookkeeping of an outcome. -/
def Outcome.map (f : Sched → Sched) : Outcome → Outcome
  | .done s => .done (f s)
  | .swap s => .swap (f s)
  | .fault => .fault

/-- The outcome of a function that has no `context_swap` call. -/
def Outcome.ofOption : Option Sched → Outcome
  | some s => .done s
  | none => .fault

/-- The state at program start: statics are zero, `tid_count = 0`, `sem_count = 0`,
`quantum_ns = 1000`, every table entry and `run_queue` are NULL. -/
def boot : Sched :=
  { thread_errno := .ERR_THREAD_MAX
    current_tid := 0
    tid_count := 0
    sem_count := 0
    quantum_ns := 1000
    cb_table := fun _ => none
    sem_table := fun _ => .null
    run_queue := none
    tval := { interval_sec := 0, interval_usec := 0, value_sec := 0, value_usec := 0 }
    sigalrm_handler := false
    itimer_real := none
    console := [] }

/-! ## Table access -/

/-- Reading `cb_table[tid]` and following the pointer: defined inside the array bounds
on a non-NULL entry. -/
def cb_at (s : Sched) (tid : Int) : Option thread_control_block :=
  if 0 ≤ tid ∧ tid < MAX_THREADS then s.cb_table tid else none

/-- Storing through `cb_table[tid]`. -/
def set_cb (s : Sched) (tid : Int) (cb : thread_control_block) : Sched :=
  { s with cb_table := fun i => if i = tid then some cb else s.cb_table i }

/-- Reading `sem_table[semaphore]` and following the pointer: defined inside the array
bounds on a live semaphore. -/
def sem_at (s : Sched) (semaphore : Int) : Option sem_t :=
  if 0 ≤ semaphore ∧ semaphore < MAX_SEMAPHORES then
    match s.sem_table semaphore with
    | .live sem => some sem
    | _ => none
  else none

/-- Storing through `sem_table[semaphore]`. -/
def set_sem (s : Sched) (semaphore : Int) (sem : sem_t) : Sched :=
  { s with sem_table := fun i => if i = semaphore then .live sem else s.sem_table i }

/-- The state of fiber `tid`, when it has a control block. -/
def state_of (s : Sched) (tid : Int) : Option ThreadState :=
  (cb_at s tid).map (fun cb => cb.state)

/-- The wait queue of semaphore `semaphore`, when it is live. -/
def wait_queue_of (s : Sched) (semaphore : Int) : Option Queue :=
  (sem_at s semaphore).map (fun sem => sem.wait_queue)

/-- The count of semaphore `semaphore`, when it is live. -/
def count_of (s : Sched) (semaphore : Int) : Option Int :=
  (sem_at s semaphore).map (fun sem => sem.count)

/-! ## The library functions -/

/-- The wrapper `context_swap`: it declares `ucontext_t *uctx;` and passes the
uninitialised pointer to `getcontext` and `swapcontext`, a write through a wild
pointer.  The call never counts as returning; the outcome records the bookkeeping
with which it was entered. -/
def context_swap (s : Sched) : Outcome := .swap s

/-- The function `thread_init`: creates the run queue; no `return` statement. -/
def thread_init (s : Sched) : RetVal × Sched :=
  (.indeterminate, { s with run_queue := some queue_create })

/-- The function `thread_create`.  At capacity it stores `ERR_THREAD_MAX` in
`thread_errno` and returns it.  Otherwise it allocates `stacksize` bytes and hands
them to `makecontext` without any check (`none` when the region is smaller than
`MIN_STACK`, which covers every `stacksize ≤ 0`), fills slot `tid_count`, enqueues
`tid_count`, increments it and reaches the end of the function without a `return`
statement. -/
def thread_create (E : Env) (s : Sched) (threadname : List Char)
    (threadfunc : Nat) (stacksize : Int) : Option (RetVal × Sched) :=
  if s.tid_count ≥ MAX_THREADS then
    let s1 := { s with thread_errno := .ERR_THREAD_MAX }
    some (.value s1.thread_errno.toInt, s1)
  else
    let cb : thread_control_block :=
      { thread_name := threadname.take (E.THREAD_NAME_LEN - 1)
        state := .RUNNABLE
        func := threadfunc
        stack_size := stacksize }
    if stacksize < E.MIN_STACK then none
    else if s.tid_count < 0 then none
    else
      let s1 := set_cb s s.tid_count cb
      match s1.run_queue with
      | none => none
      | some q =>
        some (.indeterminate,
          { s1 with run_queue := some (enqueue q s1.tid_count), tid_count := s1.tid_count + 1 })

/-- The function `thread_exit`: marks the control block of `current_tid` as `EXIT`
and calls `context_swap`. -/
def thread_exit (s : Sched) : Outcome :=
  match cb_at s s.current_tid with
  | none => .fault
  | some cb => context_swap (set_cb s s.current_tid { cb with state := .EXIT })

/-- The system call `setitimer(ITIMER_REAL, &t, NULL)` on the timer setting `old`: a
value with seconds below 0 or microseconds outside `0 .. 999999` is rejected and the
setting stays as it is (the source ignores the result); a zero initial delay disarms
the timer; otherwise `t` is in force. -/
def setitimer (old : Option itimerval) (t : itimerval) : Option itimerval :=
  if 0 ≤ t.interval_sec ∧ 0 ≤ t.interval_usec ∧ t.interval_usec ≤ 999999 ∧
      0 ≤ t.value_sec ∧ 0 ≤ t.value_usec ∧ t.value_usec ≤ 999999 then
    if t.value_sec = 0 ∧ t.value_usec = 0 then none else some t
  else old

/-- The function `set_quantum_size`: fills `tval` and calls `setitimer`. -/
def set_quantum_size (s : Sched) (n : Int) : Sched :=
  let t : itimerval := { interval_sec := 0, interval_usec := n, value_sec := 0, value_usec := n }
  { s with tval := t, itimer_real := setitimer s.itimer_real t }

/-- The function `run_threads`: `current_tid = MAIN_TID`, installs `switch_thread`
for `SIGALRM`, then `set_quantum_size(100)`. -/
def run_threads (s : Sched) : Sched :=
  set_quantum_size { s with current_tid := MAIN_TID, sigalrm_handler := true } 100

/-- The function `create_semaphore`: no capacity check; the store to
`sem_table[sem_count]` is inside the array only for `0 ≤ sem_count < MAX_SEMAPHORES`. -/
def create_semaphore (s : Sched) (value : Int) : Option (Int × Sched) :=
  let sem : sem_t := { init := value, count := value, wait_queue := queue_create }
  if 0 ≤ s.sem_count ∧ s.sem_count < MAX_SEMAPHORES then
    some (s.sem_count, { set_sem s s.sem_count sem with sem_count := s.sem_count + 1 })
  else none

/-- The function `semaphore_wait`; `sem->count--` is `int` arithmetic. -/
def semaphore_wait (s : Sched) (semaphore : Int) : Outcome :=
  if semaphore ≥ s.sem_count then .done s
  else
    match sem_at s semaphore with
    | none => .fault
    | some sem =>
      let sem1 : sem_t := { sem with count := wrap_int (sem.count - 1) }
      let s1 := set_sem s semaphore sem1
      if sem1.count < 0 then
        match cb_at s1 s1.current_tid with
        | none => .fault
        | some cb =>
          let s2 := set_cb s1 s1.current_tid { cb with state := .BLOCKED }
          let s3 := set_sem s2 semaphore
            { sem1 with wait_queue := enqueue sem1.wait_queue s2.current_tid }
          context_swap s3
      else .done s1

/-- The function `semaphore_signal`; `sem->count++` is `int` arithmetic. -/
def semaphore_signal (s : Sched) (semaphore : Int) : Option Sched :=
  if semaphore ≥ s.sem_count then some s
  else
    match sem_at s semaphore with
    | none => none
    | some sem =>
      let sem1 : sem_t := { sem with count := wrap_int (sem.count + 1) }
      let s1 := set_sem s semaphore sem1
      if sem1.count ≤ 0 then
        if queue_size sem1.wait_queue ≤ 0 then some s1
        else
          match dequeue sem1.wait_queue with
          | none => none
          | some (tid, q) =>
            let s2 := set_sem s1 semaphore { sem1 with wait_queue := q }
            match cb_at s2 tid with
            | none => none
            | some cb =>
              let s3 := set_cb s2 tid { cb with state := .RUNNABLE }
              match s3.run_queue with
              | none => none
              | some rq => some { s3 with run_queue := some (enqueue rq tid) }
      else some s1

/-- The function `destroy_semaphore`: refuses (with a printed error) when fibers wait;
otherwise prints a warning when `count != init` and releases the semaphore, leaving
the table entry pointing at the released memory. -/
def destroy_semaphore (s : Sched) (semaphore : Int) : Option Sched :=
  if semaphore ≥ s.sem_count then some s
  else
    match sem_at s semaphore with
    | none => none
    | some sem =>
      if queue_size sem.wait_queue > 0 then
        some { s with console := s.console ++ [.error_waiting semaphore] }
      else
        let s1 : Sched :=
          if sem.count ≠ sem.init then
            { s with console := s.console ++ [.warning_not_signalled semaphore] }
          else s
        some { s1 with sem_table := fun i => if i = semaphore then .freed else s1.sem_table i }

/-- The scheduler `switch_thread`. -/
def switch_thread (s : Sched) : Outcome :=
  match s.run_queue with
  | none => .fault
  | some rq =>
    if queue_size rq ≤ 0 then .done s
    else
      match dequeue rq with
      | none => .fault
      | some (tid, rq1) =>
        let s1 : Sched := { s with run_queue := some rq1 }
        let s2 : Option Sched :=
          if s1.current_tid ≠ MAIN_TID then
            match cb_at s1 s1.current_tid with
            | none => none
            | some cb_curr =>
              some { set_cb s1 s1.current_tid { cb_curr with state := .RUNNABLE } with
                     run_queue := some (enqueue rq1 s1.current_tid) }
          else some s1
        match s2 with
        | none => .fault
        | some s2 =>
          match cb_at s2 tid with
          | none => .fault
          | some cb =>
            context_swap { set_cb s2 tid { cb with state := .RUNNING } with current_tid := tid }

/-! ## Call sequences -/

/-- One call of a library function, as issued by the program or by the timer signal. -/
inductive Op where
  | init
  | create (threadname : List Char) (threadfunc : Nat) (stacksize : Int)
  | exit
  | run
  | quantum (n : Int)
  | new_sem (value : Int)
  | wait (semaphore : Int)
  | signal (semaphore : Int)
  | destroy (semaphore : Int)
  | switch
deriving DecidableEq, Repr

/-- Outcome of one call (return values dropped). -/
def step (E : Env) : Op → Sched → Outcome
  | .init, s => .done (thread_init s).2
  | .create nm f sz, s => .ofOption ((thread_create E s nm f sz).map (fun r => r.2))
  | .exit, s => thread_exit s
  | .run, s => .done (run_threads s)
  | .quantum n, s => .done (set_quantum_size s n)
  | .new_sem v, s => .ofOption ((create_semaphore s v).map (fun r => r.2))
  | .wait h, s => semaphore_wait s h
  | .signal h, s => .ofOption (semaphore_signal s h)
  | .destroy h, s => .ofOption (destroy_semaphore s h)
  | .switch, s => switch_thread s

/-- Outcome of a sequence of calls, in order: the sequence goes on while the calls
return and ends with the first call that enters `context_swap` or faults. -/
def exec (E : Env) : List Op → Sched → Outcome
  | [], s => .done s
  | op :: ops, s =>
    match step E op s with
    | .done s' => exec E ops s'
    | .swap s' => .swap s'
    | .fault => .fault

/-- The calls of a sequence that are made: all of them while the calls return, up to
and including the first call that does not return. -/
def performed (E : Env) : List Op → Sched → List Op
  | [], _ => []
  | op :: ops, s =>
    match step E op s with
    | .done s' => op :: performed E ops s'
    | _ => [op]

/-- The bookkeeping along a sequence of calls when a call that enters `context_swap` is
followed as if the swap had come back without touching the bookkeeping.  This
over-approximates what the program can do. -/
def book (E : Env) : List Op → Sched → Option Sched
  | [], s => some s
  | op :: ops, s => (step E op s).state.bind (book E ops)

/-! ## Sample states -/

/-- Sample constants: names of 16 bytes, stack regions of at least 2048 bytes. -/
def demo_env : Env :=
  { THREAD_NAME_LEN := 16, name_len_pos := by decide, MIN_STACK := 2048,
    min_stack_pos := by decide }

/-- The state after `thread_init` and `run_threads`. -/
def demo_start : Sched := run_threads (thread_init boot).2

/-- Two fibers `0` and `1` created after `thread_init` and `run_threads`; the main context
is current and the run queue is `[0, 1]`. -/
def demo_two : Sched :=
  ((exec demo_env [.init, .run, .create ['a'] 1 4096, .create ['b'] 2 4096]
    boot).returned).getD boot

/-- Two fibers `0` and `1` created after `thread_init`, without `run_threads`:
`current_tid` still has its start value 0, so fiber `0` counts as the running fiber
while it is also the head of the run queue `[0, 1]`. -/
def demo_fiber : Sched :=
  ((exec demo_env [.init, .create ['a'] 1 4096, .create ['b'] 2 4096] boot).returned).getD boot

/-- The state `demo_fiber` after `create_semaphore(0)`, which returns handle 0. -/
def demo_fiber_sem : Sched :=
  ((exec demo_env [.new_sem 0] demo_fiber).returned).getD boot

/-- The bookkeeping with which `semaphore_wait(0)` in `demo_fiber_sem` enters
`context_swap`: count -1, fiber `0` is `BLOCKED` and in the wait queue. -/
def demo_blocked : Sched :=
  ((exec demo_env [.wait 0] demo_fiber_sem).entered_swap).getD boot

/-- The bookkeeping with which the first `switch_thread` after `thread_init`,
`run_threads`, two `thread_create` and `create_semaphore(0)` enters `context_swap`:
fiber `0` is current and `RUNNING`, fiber `1` is queued. -/
def demo_running : Sched :=
  ((exec demo_env
    [.init, .run, .create ['a'] 1 4096, .create ['b'] 2 4096, .new_sem 0, .switch]
    boot).entered_swap).getD boot

/-- The state `demo_start` after `create_semaphore(1)`, which returns handle 0. -/
def demo_sem : Sched := ((create_semaphore demo_start 1).map (fun r => r.2)).getD boot

/-- The state `demo_start` after `MAX_SEMAPHORES` = 100 calls of `create_semaphore(0)`:
every slot of `sem_table` is in use. -/
def demo_sem_full : Sched :=
  ((exec demo_env (List.replicate 100 (.new_sem 0)) demo_start).returned).getD boot

/-- A state at capacity: `tid_count = MAX_THREADS`, every slot of the table filled. -/
def demo_full : Sched :=
  { (thread_init boot).2 with
    tid_count := MAX_THREADS
    cb_table := fun _ =>
      some { thread_name := ['t'], state := .RUNNABLE, func := 0, stack_size := 4096 } }

/-- Start of the semaphore scenario as the spec words it: `thread_init`, fibers A (`0`)
and B (`1`), and a semaphore (handle `0`) with initial value 1. -/
def scenario_setup : List Op :=
  [.init, .create ['A'] 1 4096, .create ['B'] 2 4096, .new_sem 1]

/-- The same start with `run_threads` called after `thread_init`. -/
def scenario_setup_run : List Op :=
  [.init, .run, .create ['A'] 1 4096, .create ['B'] 2 4096, .new_sem 1]

/-- The rest of the scenario: A is scheduled and waits, B is scheduled and waits, the
semaphore is signalled. -/
def scenario_calls : List Op :=
  [.switch, .wait 0, .switch, .wait 0, .signal 0]

/-! ## Well-formed states -/

/-- Well-formed bookkeeping: the run queue exists, `tid_count` and `sem_count` are within
the table sizes, slots below `tid_count` hold control blocks, slots below `sem_count`
hold live semaphores, `current_tid` is `MAIN_TID` or a created fiber, and every
identifier in the run queue or in a wait queue is a created fiber. -/
structure WF (s : Sched) : Prop where
  rq : ∃ q, s.run_queue = some q ∧ ∀ t ∈ q, 0 ≤ t ∧ t < s.tid_count
  tids : 0 ≤ s.tid_count ∧ s.tid_count ≤ MAX_THREADS
  cbs : ∀ t, 0 ≤ t → t < s.tid_count → ∃ cb, s.cb_table t = some cb
  cur : s.current_tid = MAIN_TID ∨ (0 ≤ s.current_tid ∧ s.current_tid < s.tid_count)
  sems : 0 ≤ s.sem_count ∧ s.sem_count ≤ MAX_SEMAPHORES
  live : ∀ h, 0 ≤ h → h < s.sem_count →
    ∃ sem, s.sem_table h = .live sem ∧ ∀ t ∈ sem.wait_queue, 0 ≤ t ∧ t < s.tid_count

/-- When a call makes no memory-unsafe access in a well-formed state `s`:
`semaphore_wait` and `thread_exit` are called by a running fiber (not from the main
context), semaphore handles are not negative, `create_semaphore` is called while the
table has room, `thread_create` is at capacity or gets a stack of at least `MIN_STACK`
bytes, and no semaphore is destroyed. -/
def Op.ok (E : Env) (s : Sched) : Op → Prop
  | .create _ _ sz => s.tid_count ≥ MAX_THREADS ∨ E.MIN_STACK ≤ sz
  | .wait h => 0 ≤ h ∧ s.current_tid ≠ MAIN_TID
  | .signal h => 0 ≤ h
  | .exit => s.current_tid ≠ MAIN_TID
  | .new_sem _ => s.sem_count < MAX_SEMAPHORES
  | .destroy _ => False
  | _ => True

/-- What one call does to the semaphores that exist before it and to `current_tid`:
`sem_count` does not shrink, and a live semaphore `h` stays live with the same initial
value; its count becomes `wrap_int (count - 1)` for a wait on `h` and
`wrap_int (count + 1)` for a signal on `h`; its wait queue grows by one entry when a
wait on `h` makes the count negative and shrinks by one when a signal on `h` finds the
new count `≤ 0` and a waiter; calls other than `switch_thread` and `run_threads` keep
`current_tid`. -/
def SemEffect (op : Op) (s s' : Sched) : Prop :=
  s.sem_count ≤ s'.sem_count ∧
  (op ≠ .switch → op ≠ .run → s'.current_tid = s.current_tid) ∧
  ∀ h sem, h < s.sem_count → sem_at s h = some sem →
    ∃ sem', sem_at s' h = some sem' ∧ sem'.init = sem.init ∧
      sem'.count = (if op = .wait h then wrap_int (sem.count - 1)
        else if op = .signal h then wrap_int (sem.count + 1) else sem.count) ∧
      (sem'.wait_queue.length : Int) = sem.wait_queue.length
        + (if op = .wait h ∧ wrap_int (sem.count - 1) < 0 then 1 else 0)
        - (if op = .signal h ∧ wrap_int (sem.count + 1) ≤ 0 ∧ sem.wait_queue ≠ [] then 1
            else 0)

/-! ## Reachable states -/

/-- Calls made while the scheduler runs: `thread_create`, `switch_thread`,
`semaphore_signal` and `create_semaphore` at any time, `semaphore_wait` and
`thread_exit` only by a running fiber (`current_tid` is not `MAIN_TID`). -/
def Op.running_call (s : Sched) : Op → Prop
  | .create _ _ _ => True
  | .switch => True
  | .wait _ => s.current_tid ≠ MAIN_TID
  | .signal _ => True
  | .exit => s.current_tid ≠ MAIN_TID
  | .new_sem _ => True
  | _ => False

instance Op.running_call_decidable (s : Sched) : (op : Op) → Decidable (op.running_call s)
  | .init => isFalse (fun h => h)
  | .create _ _ _ => isTrue trivial
  | .exit => inferInstanceAs (Decidable (s.current_tid ≠ MAIN_TID))
  | .run => isFalse (fun h => h)
  | .quantum _ => isFalse (fun h => h)
  | .new_sem _ => isTrue trivial
  | .wait _ => inferInstanceAs (Decidable (s.current_tid ≠ MAIN_TID))
  | .signal _ => isTrue trivial
  | .destroy _ => isFalse (fun h => h)
  | .switch => isTrue trivial

/-- The bookkeeping states reachable from `thread_init` followed by `run_threads`: the
state in which a call returned or entered `context_swap` is reachable, and calls made
from it count again.  Following a call past `context_swap` makes this a superset of
the states the program reaches by defined steps. -/
inductive Reachable (E : Env) : Sched → Prop where
  | start : Reachable E (run_threads (thread_init boot).2)
  | call (op : Op) (s s' : Sched) (hr : Reachable E s) (hc : op.running_call s)
      (hs : (step E op s).state = some s') : Reachable E s'

/-- Every call of the sequence is a `running_call` in the bookkeeping state in which it
is made. -/
def running_calls (E : Env) : List Op → Sched → Prop
  | [], _ => True
  | op :: ops, s =>
    op.running_call s ∧
      match (step E op s).state with
      | some s' => running_calls E ops s'
      | none => True

instance running_calls_decidable (E : Env) : (ops : List Op) → (s : Sched) →
    Decidable (running_calls E ops s)
  | [], _ => isTrue trivial
  | op :: ops, s =>
    match hs : (step E op s).state with
    | some s' =>
      match Op.running_call_decidable s op, running_calls_decidable E ops s' with
      | isTrue a, isTrue b => isTrue (by simp only [running_calls, hs]; exact ⟨a, b⟩)
      | isFalse a, _ => isFalse (by simp only [running_calls, hs]; exact fun h => a h.1)
      | _, isFalse b => isFalse (by simp only [running_calls, hs]; exact fun h => b h.2)
    | none =>
      match Op.running_call_decidable s op with
      | isTrue a => isTrue (by simp only [running_calls, hs]; exact ⟨a, trivial⟩)
      | isFalse a => isFalse (by simp only [running_calls, hs]; exact fun h => a h.1)

/-- Only the current fiber is `RUNNING`. -/
def OnlyCurrentRuns (s : Sched) : Prop :=
  ∀ t, state_of s t = some .RUNNING → t = s.current_tid

theorem cb_at_range {s : Sched} {t : Int} {cb : thread_control_block}
    (h : cb_at s t = some cb) : (0 ≤ t ∧ t < MAX_THREADS) ∧ s.cb_table t = some cb := by
  unfold cb_at at h
  by_cases hr : 0 ≤ t ∧ t < MAX_THREADS
  · exact ⟨hr, by simpa [hr] using h⟩
  · simp [hr] at h

theorem sem_at_range {s : Sched} {h : Int} {sem : sem_t}
    (hs : sem_at s h = some sem) :
    (0 ≤ h ∧ h < MAX_SEMAPHORES) ∧ s.sem_table h = .live sem := by
  unfold sem_at at hs
  by_cases hr : 0 ≤ h ∧ h < MAX_SEMAPHORES
  · refine ⟨hr, ?_⟩
    rw [if_pos hr] at hs
    split at hs
    · simp only [Option.some.injEq] at hs
      subst hs
      assumption
    · exact absurd hs (by simp)
  · simp [hr] at hs

@[simp]
theorem cb_at_set_sem (s : Sched) (h : Int) (x : sem_t) (t : Int) :
    cb_at (set_sem s h x) t = cb_at s t := rfl

@[simp]
theorem sem_at_set_cb (s : Sched) (t : Int) (cb : thread_control_block) (h : Int) :
    sem_at (set_cb s t cb) h = sem_at s h := rfl

@[simp]
theorem sem_table_set_cb (s : Sched) (t : Int) (cb : thread_control_block) :
    (set_cb s t cb).sem_table = s.sem_table := rfl

@[simp]
theorem cb_table_set_sem (s : Sched) (h : Int) (x : sem_t) :
    (set_sem s h x).cb_table = s.cb_table := rfl

@[simp]
theorem run_queue_set_sem (s : Sched) (h : Int) (x : sem_t) :
    (set_sem s h x).run_queue = s.run_queue := rfl

@[simp]
theorem run_queue_set_cb (s : Sched) (t : Int) (cb : thread_control_block) :
    (set_cb s t cb).run_queue = s.run_queue := rfl

@[simp]
theorem current_tid_set_sem (s : Sched) (h : Int) (x : sem_t) :
    (set_sem s h x).current_tid = s.current_tid := rfl

@[simp]
theorem current_tid_set_cb (s : Sched) (t : Int) (cb : thread_control_block) :
    (set_cb s t cb).current_tid = s.current_tid := rfl

@[simp]
theorem sem_table_set_sem_same (s : Sched) (h : Int) (x : sem_t) :
    (set_sem s h x).sem_table h = .live x := by
  simp [set_sem]

theorem sem_table_set_sem_ne (s : Sched) {h h' : Int} (x : sem_t) (hne : h' ≠ h) :
    (set_sem s h x).sem_table h' = s.sem_table h' := by
  simp [set_sem, hne]

theorem sem_at_set_sem_same (s : Sched) {h : Int} (x : sem_t)
    (hr : 0 ≤ h ∧ h < MAX_SEMAPHORES) : sem_at (set_sem s h x) h = some x := by
  simp [sem_at, hr]

theorem sem_at_set_sem_ne (s : Sched) {h h' : Int} (x : sem_t) (hne : h' ≠ h) :
    sem_at (set_sem s h x) h' = sem_at s h' := by
  simp [sem_at, sem_table_set_sem_ne s x hne]

theorem cb_at_set_cb_same (s : Sched) {t : Int} (cb : thread_control_block)
    (hr : 0 ≤ t ∧ t < MAX_THREADS) : cb_at (set_cb s t cb) t = some cb := by
  simp [cb_at, set_cb, hr]

theorem cb_at_set_cb_ne (s : Sched) {t t' : Int} (cb : thread_control_block) (hne : t' ≠ t) :
    cb_at (set_cb s t cb) t' = cb_at s t' := by
  simp [cb_at, set_cb, hne]

/-! ## `int` arithmetic -/

theorem wrap_int_eq {x : Int} (h0 : INT_MIN ≤ x) (h1 : x ≤ INT_MAX) : wrap_int x = x := by
  simp only [INT_MIN, INT_MAX] at h0 h1
  simp only [wrap_int]
  omega

/-! ## semaphore_wait -/

theorem semaphore_wait_blocks (s : Sched) (h : Int) (sem : sem_t) (cb : thread_control_block)
    (hvalid : h < s.sem_count) (hsem : sem_at s h = some sem)
    (hcb : cb_at s s.current_tid = some cb) (hneg : wrap_int (sem.count - 1) < 0) :
    semaphore_wait s h = .swap
      (set_sem (set_cb (set_sem s h { sem with count := wrap_int (sem.count - 1) })
          s.current_tid { cb with state := .BLOCKED }) h
        { sem with count := wrap_int (sem.count - 1),
                   wait_queue := sem.wait_queue ++ [s.current_tid] }) := by
  simp [semaphore_wait, not_le.mpr hvalid, hsem, hneg, hcb, context_swap, enqueue]

theorem semaphore_wait_passes (s : Sched) (h : Int) (sem : sem_t)
    (hvalid : h < s.sem_count) (hsem : sem_at s h = some sem)
    (hpos : 0 ≤ wrap_int (sem.count - 1)) :
    semaphore_wait s h = .done (set_sem s h { sem with count := wrap_int (sem.count - 1) }) := by
  simp [semaphore_wait, not_le.mpr hvalid, hsem, not_lt.mpr hpos]

/-- C1 as stated fails at the least `int`.  After `thread_init`, `thread_create` and
`create_semaphore(INT_MIN)`, `current_tid` is the created fiber `0` and the count is
`INT_MIN`; `semaphore_wait` returns with the count at `INT_MAX`, not one less than
before, and fiber `0` is not blocked. -/
theorem semaphore_wait_wraps :
    (exec demo_env [.init, .create ['a'] 1 4096, .new_sem INT_MIN] boot).returned.map
        (fun s => (s.current_tid, count_of s 0, state_of s 0))
      = some (0, some (-2147483648), some .RUNNABLE) ∧
    (exec demo_env [.init, .create ['a'] 1 4096, .new_sem INT_MIN, .wait 0] boot).returned.map
        (fun s => (count_of s 0, state_of s 0, wait_queue_of s 0))
      = some (some 2147483647, some .RUNNABLE, some []) := by
  exact ⟨rfl, rfl⟩

/-- C1 (amended): `semaphore_wait` on a valid handle `h` (below `sem_count`, live
semaphore `sem`) whose count is an `int` above `INT_MIN`, called while
`current_tid = c` is a created fiber (it has a control block, so it is not `MAIN_TID`).
If the new count `count - 1` is non-negative, the call returns with the count
decremented by exactly 1 and the state of `c` and the wait queue of `h` unchanged.  If
the new count is negative, the call enters `context_swap` with the count decremented by
exactly 1, the state of `c` set to `BLOCKED` and `c` appended at the tail of the wait
queue of `h`.  In both cases every other semaphore, every other control block and the
run queue are unchanged in that bookkeeping. -/
theorem semaphore_wait_contract (s : Sched) (h c : Int) (sem : sem_t) (cb : thread_control_block)
    (hvalid : h < s.sem_count) (hsem : sem_at s h = some sem)
    (hcur : s.current_tid = c) (hcb : cb_at s c = some cb)
    (hmin : INT_MIN < sem.count) (hmax : sem.count ≤ INT_MAX) :
    (0 ≤ sem.count - 1 →
      ∃ s', semaphore_wait s h = .done s' ∧
        count_of s' h = some (sem.count - 1) ∧
        state_of s' c = state_of s c ∧ wait_queue_of s' h = wait_queue_of s h ∧
        (∀ h', h' ≠ h → s'.sem_table h' = s.sem_table h') ∧
        (∀ t, t ≠ c → cb_at s' t = cb_at s t) ∧
        s'.run_queue = s.run_queue) ∧
    (sem.count - 1 < 0 →
      ∃ s', semaphore_wait s h = .swap s' ∧
        count_of s' h = some (sem.count - 1) ∧
        state_of s' c = some .BLOCKED ∧
        wait_queue_of s' h = some (sem.wait_queue ++ [c]) ∧
        (∀ h', h' ≠ h → s'.sem_table h' = s.sem_table h') ∧
        (∀ t, t ≠ c → cb_at s' t = cb_at s t) ∧
        s'.run_queue = s.run_queue) := by
  subst hcur
  obtain ⟨hr, hslot⟩ := sem_at_range hsem
  obtain ⟨hc, hcb'⟩ := cb_at_range hcb
  have hw : wrap_int (sem.count - 1) = sem.count - 1 :=
    wrap_int_eq (by omega) (by omega)
  refine ⟨?_, ?_⟩
  · intro hpos
    refine ⟨_, semaphore_wait_passes s h sem hvalid hsem (by rw [hw]; exact hpos),
      ?_, ?_, ?_, ?_, ?_, ?_⟩
    · simp [count_of, sem_at_set_sem_same _ _ hr, hw]
    · simp [state_of]
    · simp [wait_queue_of, sem_at_set_sem_same _ _ hr, hsem]
    · intro h' hne
      simp [sem_table_set_sem_ne _ _ hne]
    · intro t _
      simp
    · simp
  · intro hneg
    refine ⟨_, semaphore_wait_blocks s h sem cb hvalid hsem hcb (by rw [hw]; exact hneg),
      ?_, ?_, ?_, ?_, ?_, ?_⟩
    · simp [count_of, sem_at_set_sem_same _ _ hr, hw]
    · simp [state_of, cb_at_set_cb_same _ _ hc]
    · simp [wait_queue_of, sem_at_set_sem_same _ _ hr]
    · intro h' hne
      simp [sem_table_set_sem_ne _ _ hne]
    · intro t hne
      simp [cb_at_set_cb_ne _ _ hne]
    · simp

/-- The witness for C1 (amended): in `demo_fiber_sem` fiber `0` is current and semaphore
`0` has count 0; the wait enters `context_swap` with count -1, fiber `0` `BLOCKED` and
at the tail of the wait queue. -/
theorem semaphore_wait_contract_witness :
    (0 : Int) < demo_fiber_sem.sem_count ∧
    sem_at demo_fiber_sem 0 = some { init := 0, count := 0, wait_queue := [] } ∧
    demo_fiber_sem.current_tid = 0 ∧
    cb_at demo_fiber_sem 0 =
      some { thread_name := ['a'], state := .RUNNABLE, func := 1, stack_size := 4096 } ∧
    INT_MIN < (0 : Int) ∧ (0 : Int) ≤ INT_MAX ∧
    ∃ s', semaphore_wait demo_fiber_sem 0 = .swap s' ∧ count_of s' 0 = some (-1) ∧
      state_of s' 0 = some .BLOCKED ∧ wait_queue_of s' 0 = some [0] :=
  ⟨by decide, by decide, by decide, by decide, by decide, by decide, by
    obtain ⟨s', h1, h2, h3, h4, -⟩ :=
      (semaphore_wait_contract demo_fiber_sem 0 0 { init := 0, count := 0, wait_queue := [] }
        { thread_name := ['a'], state := .RUNNABLE, func := 1, stack_size := 4096 }
        (by decide) (by decide) (by decide) (by decide) (by decide) (by decide)).2
        (by decide)
    exact ⟨s', h1, h2, h3, h4⟩⟩

/-! ## semaphore_signal -/

theorem semaphore_signal_releases (s : Sched) (h t : Int) (sem : sem_t) (q rq : Queue)
    (cb : thread_control_block)
    (hvalid : h < s.sem_count) (hsem : sem_at s h = some sem)
    (hle : wrap_int (sem.count + 1) ≤ 0)
    (hq : sem.wait_queue = t :: q) (hcb : cb_at s t = some cb) (hrq : s.run_queue = some rq) :
    semaphore_signal s h = some
      { set_cb (set_sem (set_sem s h { sem with count := wrap_int (sem.count + 1) }) h
          { sem with count := wrap_int (sem.count + 1), wait_queue := q }) t
          { cb with state := .RUNNABLE } with run_queue := some (rq ++ [t]) } := by
  have hsz : ¬ ((q.length : Int) + 1 ≤ 0) := by omega
  simp [semaphore_signal, not_le.mpr hvalid, hsem, hle, hq, queue_size, hsz, dequeue, hcb, hrq,
    enqueue]

theorem semaphore_signal_idle (s : Sched) (h : Int) (sem : sem_t)
    (hvalid : h < s.sem_count) (hsem : sem_at s h = some sem)
    (hidle : 0 < wrap_int (sem.count + 1) ∨ sem.wait_queue = []) :
    semaphore_signal s h = some (set_sem s h { sem with count := wrap_int (sem.count + 1) }) := by
  rcases hidle with hpos | hq
  · simp [semaphore_signal, not_le.mpr hvalid, hsem, not_le.mpr hpos]
  · simp [semaphore_signal, not_le.mpr hvalid, hsem, hq, queue_size]

/-- C2 as stated fails at the greatest `int`.  After `thread_init`, `run_threads` and
`create_semaphore(INT_MAX)` the count is `INT_MAX`; `semaphore_signal` returns with the
count at `INT_MIN`, not one more than before. -/
theorem semaphore_signal_wraps :
    (exec demo_env [.init, .run, .new_sem INT_MAX] boot).returned.map
        (fun s => count_of s 0) = some (some 2147483647) ∧
    (exec demo_env [.init, .run, .new_sem INT_MAX, .signal 0] boot).returned.map
        (fun s => count_of s 0) = some (some (-2147483648)) := by
  exact ⟨rfl, rfl⟩

/-- C2 (amended): `semaphore_signal` on a valid handle `h` (below `sem_count`, live
semaphore `sem`) whose count is an `int` below `INT_MAX` adds exactly 1 to the count.
When the new count is positive, no control block and no queue changes.  When the new
count is `≤ 0` and the wait queue is `t :: q` (with `t` a created fiber and the run
queue in place), `t` is removed from the wait queue, which keeps the remaining waiters
`q` in order, the state of `t` becomes `RUNNABLE` and `t` is appended at the tail of the
run queue; every other control block and semaphore is unchanged.  When the new count is
`≤ 0` and the wait queue is empty, only the count changes. -/
theorem semaphore_signal_contract (s : Sched) (h : Int) (sem : sem_t)
    (hvalid : h < s.sem_count) (hsem : sem_at s h = some sem)
    (hmin : INT_MIN ≤ sem.count) (hmax : sem.count < INT_MAX) :
    (0 < sem.count + 1 →
      ∃ s', semaphore_signal s h = some s' ∧ count_of s' h = some (sem.count + 1) ∧
        s'.cb_table = s.cb_table ∧ s'.run_queue = s.run_queue ∧
        wait_queue_of s' h = some sem.wait_queue ∧
        ∀ h', h' ≠ h → s'.sem_table h' = s.sem_table h') ∧
    (sem.count + 1 ≤ 0 →
      ∀ (t : Int) (q rq : Queue) (cb : thread_control_block),
        sem.wait_queue = t :: q → cb_at s t = some cb → s.run_queue = some rq →
        ∃ s', semaphore_signal s h = some s' ∧ count_of s' h = some (sem.count + 1) ∧
          wait_queue_of s' h = some q ∧ state_of s' t = some .RUNNABLE ∧
          s'.run_queue = some (rq ++ [t]) ∧
          (∀ t', t' ≠ t → cb_at s' t' = cb_at s t') ∧
          ∀ h', h' ≠ h → s'.sem_table h' = s.sem_table h') ∧
    (sem.count + 1 ≤ 0 → sem.wait_queue = [] →
      ∃ s', semaphore_signal s h = some s' ∧ count_of s' h = some (sem.count + 1) ∧
        s'.cb_table = s.cb_table ∧ s'.run_queue = s.run_queue ∧
        wait_queue_of s' h = some [] ∧
        ∀ h', h' ≠ h → s'.sem_table h' = s.sem_table h') := by
  obtain ⟨hr, hslot⟩ := sem_at_range hsem
  have hw : wrap_int (sem.count + 1) = sem.count + 1 :=
    wrap_int_eq (by omega) (by omega)
  refine ⟨?_, ?_, ?_⟩
  · intro hpos
    refine ⟨_, semaphore_signal_idle s h sem hvalid hsem (Or.inl (by rw [hw]; exact hpos)),
      ?_, ?_, ?_, ?_, ?_⟩
    · simp [count_of, sem_at_set_sem_same _ _ hr, hw]
    · simp
    · simp
    · simp [wait_queue_of, sem_at_set_sem_same _ _ hr]
    · intro h' hne
      simp [sem_table_set_sem_ne _ _ hne]
  · intro hle t q rq cb hq hcb hrq
    obtain ⟨ht, -⟩ := cb_at_range hcb
    refine ⟨_, semaphore_signal_releases s h t sem q rq cb hvalid hsem (by rw [hw]; exact hle)
      hq hcb hrq, ?_, ?_, ?_, ?_, ?_, ?_⟩
    · simp [count_of, sem_at, hr, set_cb, set_sem, hw]
    · simp [wait_queue_of, sem_at, hr, set_cb, set_sem]
    · simp [state_of, cb_at, ht, set_cb]
    · simp
    · intro t' hne
      simp [cb_at, set_cb, set_sem, hne]
    · intro h' hne
      simp [set_cb, set_sem, hne]
  · intro _ hq
    refine ⟨_, semaphore_signal_idle s h sem hvalid hsem (Or.inr hq), ?_, ?_, ?_, ?_, ?_⟩
    · simp [count_of, sem_at_set_sem_same _ _ hr, hw]
    · simp
    · simp
    · simp [wait_queue_of, sem_at_set_sem_same _ _ hr, hq]
    · intro h' hne
      simp [sem_table_set_sem_ne _ _ hne]

/-- The witness for C2 (amended): in `demo_blocked` semaphore `0` has count -1 and wait
queue `[0]`; the signal makes the count 0, empties the wait queue, makes fiber `0`
`RUNNABLE` and puts it at the tail of the run queue `[0, 1]`. -/
theorem semaphore_signal_contract_witness :
    (0 : Int) < demo_blocked.sem_count ∧
    sem_at demo_blocked 0 = some { init := 0, count := -1, wait_queue := [0] } ∧
    INT_MIN ≤ (-1 : Int) ∧ (-1 : Int) < INT_MAX ∧
    ∃ s', semaphore_signal demo_blocked 0 = some s' ∧ count_of s' 0 = some 0 ∧
      wait_queue_of s' 0 = some [] ∧ state_of s' 0 = some .RUNNABLE ∧
      s'.run_queue = some [0, 1, 0] :=
  ⟨by decide, by decide, by decide, by decide, by
    obtain ⟨s', h1, h2, h3, h4, h5, -⟩ :=
      (semaphore_signal_contract demo_blocked 0 { init := 0, count := -1, wait_queue := [0] }
        (by decide) (by decide) (by decide) (by decide)).2.1 (by decide) 0 [] [0, 1]
        { thread_name := ['a'], state := .BLOCKED, func := 1, stack_size := 4096 }
        rfl (by decide) (by decide)
    exact ⟨s', h1, h2, h3, h4, h5⟩⟩

/-! ## Bookkeeping of blocked and exited fibers -/

/-- C5: evaluation at the failing input.  `thread_init`, `thread_create`,
`switch_thread` (no `run_threads`, so `current_tid` still holds its start value 0):
`switch_thread` re-enqueues fiber `0` and marks it `RUNNING`; when it enters
`context_swap` fiber `0` is `RUNNING` and in the run queue. -/
theorem state_queue_inconsistent :
    (exec demo_env [.init, .create ['a'] 1 4096, .switch] boot).entered_swap.map
        (fun s => (s.current_tid, state_of s 0, s.run_queue))
      = some (0, some .RUNNING, some [0]) := by
  rfl

/-- C6: evaluation at the failing input.  After `thread_init` and `thread_create`,
`current_tid` is fiber `0`, which calls `thread_exit`.  The call does not return: it
enters `context_swap`, and in the bookkeeping at that point the state of fiber `0` is
`EXIT` while fiber `0` is in the run queue. -/
theorem exited_fiber_queued :
    (exec demo_env [.init, .create ['a'] 1 4096, .exit] boot).entered_swap.map
        (fun s => (s.current_tid, state_of s 0, s.run_queue))
      = some (0, some .EXIT, some [0]) := by
  rfl

/-! ## switch_thread -/

theorem switch_thread_empty (s : Sched) (hrq : s.run_queue = some []) :
    switch_thread s = .done s := by
  simp [switch_thread, hrq, queue_size]

theorem switch_thread_from_main (s : Sched) (next : Int) (rest : Queue)
    (cb : thread_control_block) (hrq : s.run_queue = some (next :: rest))
    (hmain : s.current_tid = MAIN_TID) (hcb : cb_at s next = some cb) :
    switch_thread s = .swap
      { set_cb { s with run_queue := some rest } next { cb with state := .RUNNING } with
        current_tid := next } := by
  have hsz : ¬ ((rest.length : Int) + 1 ≤ 0) := by omega
  obtain ⟨hn, hcbt⟩ := cb_at_range hcb
  simp [switch_thread, hrq, queue_size, hsz, dequeue, hmain, cb_at, set_cb, hn, hcbt,
    context_swap]

theorem switch_thread_from_fiber (s : Sched) (next : Int) (rest : Queue)
    (cbc cb : thread_control_block) (hrq : s.run_queue = some (next :: rest))
    (hmain : s.current_tid ≠ MAIN_TID) (hcur : cb_at s s.current_tid = some cbc)
    (hcb : cb_at (set_cb s s.current_tid { cbc with state := .RUNNABLE }) next = some cb) :
    switch_thread s = .swap
      { set_cb { set_cb s s.current_tid { cbc with state := .RUNNABLE } with
                 run_queue := some (rest ++ [s.current_tid]) }
          next { cb with state := .RUNNING } with
        current_tid := next } := by
  have hsz : ¬ ((rest.length : Int) + 1 ≤ 0) := by omega
  obtain ⟨hc, hcbc⟩ := cb_at_range hcur
  obtain ⟨hn, hcbt⟩ := cb_at_range hcb
  simp only [set_cb] at hcbt
  simp [switch_thread, hrq, queue_size, hsz, dequeue, hmain, cb_at, set_cb, hc, hcbc, hn, hcbt,
    context_swap, enqueue]

/-- C8: evaluation at the failing input.  On a state whose run queue is `rq`: if `rq` is
empty `switch_thread` returns with the whole state unchanged.  Otherwise, with `next`
the head of `rq` (a created fiber) and `rest` its tail, the call never returns: it does
the bookkeeping of the scheduling step and enters `context_swap`.  In the bookkeeping at
that point the run queue is `rest` when `current_tid` was `MAIN_TID` and `rest` followed
by the old `current_tid` when that was a created fiber, whose state is `RUNNABLE`
provided it is not `next` itself; the state of `next` is `RUNNING`, `current_tid = next`,
and every other control block and every semaphore is as before. -/
theorem switch_thread_step (s : Sched) (rq : Queue) (hrq : s.run_queue = some rq) :
    (rq = [] → switch_thread s = .done s) ∧
    (∀ (next : Int) (rest : Queue) (cb : thread_control_block),
      rq = next :: rest → cb_at s next = some cb →
      (s.current_tid = MAIN_TID →
        ∃ s', switch_thread s = .swap s' ∧ s'.run_queue = some rest ∧
          state_of s' next = some .RUNNING ∧ s'.current_tid = next ∧
          (∀ t, t ≠ next → cb_at s' t = cb_at s t) ∧ s'.sem_table = s.sem_table) ∧
      (∀ cbc : thread_control_block,
        s.current_tid ≠ MAIN_TID → cb_at s s.current_tid = some cbc →
        ∃ s', switch_thread s = .swap s' ∧ s'.run_queue = some (rest ++ [s.current_tid]) ∧
          (s.current_tid ≠ next → state_of s' s.current_tid = some .RUNNABLE) ∧
          state_of s' next = some .RUNNING ∧ s'.current_tid = next ∧
          (∀ t, t ≠ next → t ≠ s.current_tid → cb_at s' t = cb_at s t) ∧
          s'.sem_table = s.sem_table)) := by
  refine ⟨?_, ?_⟩
  · intro he
    subst he
    exact switch_thread_empty s hrq
  · intro next rest cb he hcb
    subst he
    obtain ⟨hn, hcbt⟩ := cb_at_range hcb
    refine ⟨?_, ?_⟩
    · intro hmain
      refine ⟨_, switch_thread_from_main s next rest cb hrq hmain hcb, ?_, ?_, ?_, ?_, ?_⟩
      · simp
      · simp [state_of, cb_at, set_cb, hn]
      · simp
      · intro t hne
        simp [cb_at, set_cb, hne]
      · simp
    · intro cbc hmain hcur
      obtain ⟨hc, hcbc⟩ := cb_at_range hcur
      by_cases hself : next = s.current_tid
      · have hcb2 : cb_at (set_cb s s.current_tid { cbc with state := .RUNNABLE }) next
            = some { cbc with state := .RUNNABLE } := by
          rw [hself]
          exact cb_at_set_cb_same _ _ hc
        refine ⟨_, switch_thread_from_fiber s next rest cbc _ hrq hmain hcur hcb2,
          ?_, ?_, ?_, ?_, ?_, ?_⟩
        · simp
        · intro hne
          exact absurd hself.symm hne
        · simp [state_of, cb_at, set_cb, hn]
        · simp
        · intro t hne _
          simp [cb_at, set_cb, hne, hself ▸ hne]
        · simp
      · have hcb2 : cb_at (set_cb s s.current_tid { cbc with state := .RUNNABLE }) next
            = some cb := by
          rw [cb_at_set_cb_ne _ _ hself]
          exact hcb
        refine ⟨_, switch_thread_from_fiber s next rest cbc cb hrq hmain hcur hcb2,
          ?_, ?_, ?_, ?_, ?_, ?_⟩
        · simp
        · intro hne
          simp [state_of, cb_at, set_cb, hc, hne]
        · simp [state_of, cb_at, set_cb, hn]
        · simp
        · intro t hne hne2
          simp [cb_at, set_cb, hne, hne2]
        · simp

/-- The witness for C8: in `demo_two` the main context is current and the run queue is
`[0, 1]`; `switch_thread` enters `context_swap` with fiber `0` current and `RUNNING`
and the run queue `[1]`. -/
theorem switch_thread_step_witness :
    demo_two.run_queue = some [0, 1] ∧
    cb_at demo_two 0 =
      some { thread_name := ['a'], state := .RUNNABLE, func := 1, stack_size := 4096 } ∧
    demo_two.current_tid = MAIN_TID ∧
    ∃ s', switch_thread demo_two = .swap s' ∧ s'.run_queue = some [1] ∧
      state_of s' 0 = some .RUNNING ∧ s'.current_tid = 0 :=
  ⟨by decide, by decide, by decide, by
    obtain ⟨s', h1, h2, h3, h4, -⟩ :=
      ((switch_thread_step demo_two [0, 1] (by decide)).2 0 [1]
        { thread_name := ['a'], state := .RUNNABLE, func := 1, stack_size := 4096 }
        rfl (by decide)).1 (by decide)
    exact ⟨s', h1, h2, h3, h4⟩⟩

/-! ## thread_create -/

/-- C9: evaluation at the failing input.  With `tid_count = MAX_THREADS`, `thread_create`
leaves `tid_count`, the control block table and the run queue unchanged, and the value
it returns is `ERR_THREAD_MAX`, the number 0, which lies in the handle range
`[0, MAX_THREADS)`: the result is not distinguishable from the valid handle 0. -/
theorem thread_create_at_capacity (E : Env) (s : Sched) (threadname : List Char)
    (threadfunc : Nat) (stacksize : Int) (hfull : s.tid_count = MAX_THREADS) :
    ∃ v s', thread_create E s threadname threadfunc stacksize = some (.value v, s') ∧
      v = thread_err_t.ERR_THREAD_MAX.toInt ∧ (0 ≤ v ∧ v < MAX_THREADS) ∧
      s'.tid_count = MAX_THREADS ∧ s'.cb_table = s.cb_table ∧ s'.run_queue = s.run_queue := by
  refine ⟨0, { s with thread_errno := .ERR_THREAD_MAX }, ?_, rfl, by decide, hfull, rfl, rfl⟩
  simp [thread_create, hfull, thread_err_t.toInt]

/-- The witness for C9: the full table `demo_full`. -/
theorem thread_create_at_capacity_witness :
    demo_full.tid_count = MAX_THREADS ∧
    ∃ v s', thread_create demo_env demo_full ['x'] 7 4096 = some (.value v, s') ∧ v = 0 ∧
      s'.tid_count = MAX_THREADS :=
  ⟨rfl, by
    obtain ⟨v, s', h1, h2, -, h3, -⟩ :=
      thread_create_at_capacity demo_env demo_full ['x'] 7 4096 rfl
    exact ⟨v, s', h1, h2, h3⟩⟩

theorem thread_create_fresh (E : Env) (s : Sched) (threadname : List Char)
    (threadfunc : Nat) (stacksize : Int) (rq : Queue)
    (h0 : 0 ≤ s.tid_count) (hlt : s.tid_count < MAX_THREADS) (hrq : s.run_queue = some rq)
    (hst : E.MIN_STACK ≤ stacksize) :
    thread_create E s threadname threadfunc stacksize = some (.indeterminate,
      { set_cb s s.tid_count
          { thread_name := threadname.take (E.THREAD_NAME_LEN - 1), state := .RUNNABLE,
            func := threadfunc, stack_size := stacksize } with
        run_queue := some (rq ++ [s.tid_count]), tid_count := s.tid_count + 1 }) := by
  simp [thread_create, not_le.mpr hlt, not_lt.mpr h0, not_lt.mpr hst, hrq, enqueue, set_cb]

/-- C10: evaluation at the failing input.  Below capacity (`0 ≤ tid_count < MAX_THREADS`,
run queue in place, a stack of at least `MIN_STACK` bytes) `thread_create` stores the
new control block in slot `tid_count`, appends `tid_count` to the run queue and
increments `tid_count`, but hands back no value: control reaches the end of the
function without a `return` statement. -/
theorem thread_create_returns_no_handle (E : Env) (s : Sched) (threadname : List Char)
    (threadfunc : Nat) (stacksize : Int) (rq : Queue)
    (h0 : 0 ≤ s.tid_count) (hlt : s.tid_count < MAX_THREADS) (hrq : s.run_queue = some rq)
    (hst : E.MIN_STACK ≤ stacksize) :
    ∃ s', thread_create E s threadname threadfunc stacksize = some (.indeterminate, s') ∧
      cb_at s' s.tid_count = some
        { thread_name := threadname.take (E.THREAD_NAME_LEN - 1), state := .RUNNABLE,
          func := threadfunc, stack_size := stacksize } ∧
      s'.run_queue = some (rq ++ [s.tid_count]) ∧ s'.tid_count = s.tid_count + 1 := by
  refine ⟨_, thread_create_fresh E s threadname threadfunc stacksize rq h0 hlt hrq hst,
    ?_, ?_, ?_⟩
  · simp [cb_at, set_cb, h0, hlt]
  · simp
  · simp

/-- The witness for C10: the first `thread_create` after `thread_init` fills slot 0 and
returns nothing definite. -/
theorem thread_create_returns_no_handle_witness :
    (0 : Int) ≤ (thread_init boot).2.tid_count ∧ (thread_init boot).2.tid_count < MAX_THREADS ∧
    (thread_init boot).2.run_queue = some [] ∧ demo_env.MIN_STACK ≤ 4096 ∧
    ∃ s', thread_create demo_env (thread_init boot).2 ['a'] 1 4096 = some (.indeterminate, s') ∧
      s'.run_queue = some [0] ∧ s'.tid_count = 1 :=
  ⟨by decide, by decide, rfl, by decide, by
    obtain ⟨s', h1, -, h2, h3⟩ :=
      thread_create_returns_no_handle demo_env (thread_init boot).2 ['a'] 1 4096 []
        (by decide) (by decide) rfl (by decide)
    exact ⟨s', h1, h2, h3⟩⟩

/-- C11 as stated fails for a stack size that is not positive: in `demo_start`
(`tid_count = 0`, below capacity) `thread_create` with `stacksize` 0 or -1 hands
`makecontext` a region that cannot hold the initial frame (`MIN_STACK` is positive) and
stores no control block. -/
theorem thread_create_bad_stack :
    demo_start.tid_count = 0 ∧
    thread_create demo_env demo_start ['a'] 1 0 = none ∧
    thread_create demo_env demo_start ['a'] 1 (-1) = none := by
  exact ⟨rfl, rfl, rfl⟩

/-- C11 (amended): `thread_create` in a state with `tid_count = n`, `0 ≤ n < MAX_THREADS`,
the run queue `rq` in place, and a stack size of at least `MIN_STACK` bytes: the call
returns; slot `n` of the control block table holds a new fiber whose state is
`RUNNABLE` and whose entry is the given function; `n` is appended at the tail of the
run queue, behind the previous contents in their order; `tid_count = n + 1`; every
other slot (in particular slots `0..n-1`), `current_tid` and all semaphores are
unchanged. -/
theorem thread_create_success (E : Env) (s : Sched) (threadname : List Char)
    (threadfunc : Nat) (stacksize : Int) (n : Int) (rq : Queue)
    (hn : s.tid_count = n) (h0 : 0 ≤ n) (hlt : n < MAX_THREADS)
    (hrq : s.run_queue = some rq) (hst : E.MIN_STACK ≤ stacksize) :
    ∃ r s' cb, thread_create E s threadname threadfunc stacksize = some (r, s') ∧
      cb_at s' n = some cb ∧ cb.state = .RUNNABLE ∧ cb.func = threadfunc ∧
      s'.run_queue = some (rq ++ [n]) ∧ s'.tid_count = n + 1 ∧
      (∀ t, t ≠ n → s'.cb_table t = s.cb_table t) ∧
      s'.current_tid = s.current_tid ∧
      s'.sem_table = s.sem_table ∧ s'.sem_count = s.sem_count := by
  subst hn
  refine ⟨.indeterminate, _,
    (⟨threadname.take (E.THREAD_NAME_LEN - 1), .RUNNABLE, threadfunc, stacksize⟩ :
      thread_control_block),
    thread_create_fresh E s threadname threadfunc stacksize rq h0 hlt hrq hst,
    ?_, rfl, rfl, rfl, rfl, ?_, rfl, rfl, rfl⟩
  · simp [cb_at, set_cb, h0, hlt]
  · intro t hne
    simp [set_cb, hne]

/-- The witness for C11 (amended): the second `thread_create` in a state that holds one
fiber. -/
theorem thread_create_success_witness :
    ((exec demo_env [.init, .run, .create ['a'] 1 4096] boot).returned.getD boot).tid_count
      = 1 ∧
    (0 : Int) ≤ 1 ∧ (1 : Int) < MAX_THREADS ∧
    ((exec demo_env [.init, .run, .create ['a'] 1 4096] boot).returned.getD boot).run_queue
      = some [0] ∧
    demo_env.MIN_STACK ≤ 4096 ∧
    ∃ r s' cb,
      thread_create demo_env
        ((exec demo_env [.init, .run, .create ['a'] 1 4096] boot).returned.getD boot)
        ['b'] 2 4096 = some (r, s') ∧
      cb_at s' 1 = some cb ∧ cb.state = .RUNNABLE ∧ cb.func = 2 ∧
      s'.run_queue = some [0, 1] ∧ s'.tid_count = 2 :=
  ⟨rfl, by decide, by decide, rfl, by decide, by
    obtain ⟨r, s', cb, h1, h2, h3, h4, h5, h6, -⟩ :=
      thread_create_success demo_env
        ((exec demo_env [.init, .run, .create ['a'] 1 4096] boot).returned.getD boot)
        ['b'] 2 4096 1 [0] rfl (by decide) (by decide) rfl (by decide)
    exact ⟨r, s', cb, h1, h2, h3, h4, h5, h6⟩⟩

/-! ## Well-formedness is preserved -/

theorem WF.set_cb {s : Sched} (w : WF s) (t : Int) (cb : thread_control_block) :
    WF (set_cb s t cb) := by
  refine ⟨w.rq, w.tids, ?_, w.cur, w.sems, w.live⟩
  intro t' h0 h1
  by_cases he : t' = t
  · exact ⟨cb, by simp [Thread.set_cb, he]⟩
  · obtain ⟨c, hc⟩ := w.cbs t' h0 h1
    exact ⟨c, by simp [Thread.set_cb, he, hc]⟩

theorem WF.set_sem {s : Sched} (w : WF s) (h : Int) (x : sem_t)
    (hx : ∀ t ∈ x.wait_queue, 0 ≤ t ∧ t < s.tid_count) : WF (set_sem s h x) := by
  refine ⟨w.rq, w.tids, w.cbs, w.cur, w.sems, ?_⟩
  intro h' h0 h1
  by_cases he : h' = h
  · exact ⟨x, by simp [Thread.set_sem, he], hx⟩
  · obtain ⟨sem, hs, hq⟩ := w.live h' h0 h1
    exact ⟨sem, by simp [Thread.set_sem, he, hs], hq⟩

theorem WF.set_rq {s : Sched} (w : WF s) (q : Queue)
    (hq : ∀ t ∈ q, 0 ≤ t ∧ t < s.tid_count) : WF { s with run_queue := some q } :=
  ⟨⟨q, rfl, hq⟩, w.tids, w.cbs, w.cur, w.sems, w.live⟩

theorem WF.set_cur {s : Sched} (w : WF s) (t : Int)
    (ht : t = MAIN_TID ∨ (0 ≤ t ∧ t < s.tid_count)) : WF { s with current_tid := t } :=
  ⟨w.rq, w.tids, w.cbs, ht, w.sems, w.live⟩

theorem WF.cb_at {s : Sched} (w : WF s) {t : Int} (h0 : 0 ≤ t) (h1 : t < s.tid_count) :
    ∃ cb, cb_at s t = some cb := by
  obtain ⟨cb, hcb⟩ := w.cbs t h0 h1
  have hr : 0 ≤ t ∧ t < MAX_THREADS := ⟨h0, lt_of_lt_of_le h1 w.tids.2⟩
  exact ⟨cb, by simp [Thread.cb_at, hr, hcb]⟩

theorem WF.sem_at {s : Sched} (w : WF s) {h : Int} (h0 : 0 ≤ h) (h1 : h < s.sem_count) :
    ∃ sem, sem_at s h = some sem ∧ ∀ t ∈ sem.wait_queue, 0 ≤ t ∧ t < s.tid_count := by
  obtain ⟨sem, hs, hq⟩ := w.live h h0 h1
  have hr : 0 ≤ h ∧ h < MAX_SEMAPHORES := ⟨h0, lt_of_lt_of_le h1 w.sems.2⟩
  exact ⟨sem, by simp [Thread.sem_at, hr, hs], hq⟩

/-- After `thread_init` and `run_threads` the bookkeeping is well-formed. -/
theorem WF_start : WF (run_threads (thread_init boot).2) := by
  refine ⟨⟨[], rfl, by simp⟩, by decide, ?_, Or.inl rfl, by decide, ?_⟩
  · intro t h0 h1
    have : (run_threads (thread_init boot).2).tid_count = 0 := rfl
    omega
  · intro h h0 h1
    have : (run_threads (thread_init boot).2).sem_count = 0 := rfl
    omega

theorem sem_at_congr {s s' : Sched} (h : Int) (he : s'.sem_table = s.sem_table) :
    sem_at s' h = sem_at s h := by
  simp [sem_at, he]

theorem SemEffect_of_same {op : Op} {s s' : Sched} (ht : s'.sem_table = s.sem_table)
    (hc : s'.sem_count = s.sem_count)
    (hcur : op ≠ .switch → op ≠ .run → s'.current_tid = s.current_tid)
    (hw : ∀ h, op ≠ .wait h) (hs : ∀ h, op ≠ .signal h) :
    SemEffect op s s' := by
  refine ⟨le_of_eq hc.symm, hcur, ?_⟩
  intro h sem _ hsem
  refine ⟨sem, by rw [sem_at_congr h ht, hsem], rfl, ?_, ?_⟩
  · simp [hw h, hs h]
  · simp [hw h, hs h]

theorem state_of_swap {o : Outcome} {x : Sched} (h : o = .swap x) : o.state = some x := by
  rw [h]
  rfl

theorem state_of_done {o : Outcome} {x : Sched} (h : o = .done x) : o.state = some x := by
  rw [h]
  rfl

theorem WF.current_fiber {s : Sched} (w : WF s) (hmain : s.current_tid ≠ MAIN_TID) :
    0 ≤ s.current_tid ∧ s.current_tid < s.tid_count := by
  rcases w.cur with hc | hc
  · exact absurd hc hmain
  · exact hc

theorem step_ok_wait (E : Env) (s : Sched) (h : Int) (w : WF s) (hok : (Op.wait h).ok E s) :
    ∃ s', (step E (.wait h) s).state = some s' ∧ WF s' ∧ SemEffect (.wait h) s s' := by
  obtain ⟨h0, hmain⟩ := hok
  have hst : step E (.wait h) s = semaphore_wait s h := rfl
  by_cases hv : h < s.sem_count
  · obtain ⟨sem, hsem, hq⟩ := w.sem_at h0 hv
    obtain ⟨hr, -⟩ := sem_at_range hsem
    have hcur := w.current_fiber hmain
    obtain ⟨cb, hcb⟩ := w.cb_at hcur.1 hcur.2
    by_cases hneg : wrap_int (sem.count - 1) < 0
    · refine ⟨_, state_of_swap (hst.trans (semaphore_wait_blocks s h sem cb hv hsem hcb hneg)), ?_,
        le_refl _, fun _ _ => rfl, ?_⟩
      · refine WF.set_sem (WF.set_cb (WF.set_sem w h _ (by exact hq)) _ _) h _ ?_
        intro t ht
        simp only [List.mem_append, List.mem_singleton] at ht
        rcases ht with ht | ht
        · exact hq t ht
        · subst ht
          exact hcur
      · intro h' sem' hv' hsem'
        by_cases he : h' = h
        · subst he
          rw [hsem] at hsem'
          cases hsem'
          refine ⟨_, sem_at_set_sem_same _ _ hr, rfl, ?_, ?_⟩
          · simp
          · simp [hneg]
        · refine ⟨sem', ?_, rfl, ?_, ?_⟩
          · rw [sem_at_set_sem_ne _ _ he, sem_at_set_cb, sem_at_set_sem_ne _ _ he, hsem']
          · simp [Ne.symm he]
          · simp [Ne.symm he]
    · have hpos : 0 ≤ wrap_int (sem.count - 1) := not_lt.mp hneg
      refine ⟨_, state_of_done (hst.trans (semaphore_wait_passes s h sem hv hsem hpos)),
        WF.set_sem w h _ (by exact hq), le_refl _, fun _ _ => rfl, ?_⟩
      intro h' sem' hv' hsem'
      by_cases he : h' = h
      · subst he
        rw [hsem] at hsem'
        cases hsem'
        refine ⟨_, sem_at_set_sem_same _ _ hr, rfl, ?_, ?_⟩
        · simp
        · simp [hneg]
      · refine ⟨sem', ?_, rfl, ?_, ?_⟩
        · rw [sem_at_set_sem_ne _ _ he, hsem']
        · simp [Ne.symm he]
        · simp [Ne.symm he]
  · have hge : h ≥ s.sem_count := not_lt.mp hv
    refine ⟨s, by simp [hst, semaphore_wait, hge, Outcome.state], w, le_refl _,
      fun _ _ => rfl, ?_⟩
    intro h' sem' hv' hsem'
    have he : h ≠ h' := by omega
    exact ⟨sem', hsem', rfl, by simp [he], by simp [he]⟩

theorem step_ok_signal (E : Env) (s : Sched) (h : Int) (w : WF s)
    (h0 : (Op.signal h).ok E s) :
    ∃ s', (step E (.signal h) s).state = some s' ∧ WF s' ∧ SemEffect (.signal h) s s' := by
  have h0 : 0 ≤ h := h0
  have hst : ∀ x, semaphore_signal s h = some x → (step E (.signal h) s).state = some x := by
    intro x hx
    simp [step, hx, Outcome.ofOption, Outcome.state]
  by_cases hv : h < s.sem_count
  · obtain ⟨sem, hsem, hq⟩ := w.sem_at h0 hv
    obtain ⟨hr, -⟩ := sem_at_range hsem
    by_cases hrel : wrap_int (sem.count + 1) ≤ 0 ∧ sem.wait_queue ≠ []
    · obtain ⟨hle, hne⟩ := hrel
      obtain ⟨t, q, hcons⟩ := List.exists_cons_of_ne_nil hne
      have ht : 0 ≤ t ∧ t < s.tid_count := hq t (by simp [hcons])
      obtain ⟨cb, hcb⟩ := w.cb_at ht.1 ht.2
      obtain ⟨rq, hrq, hrqr⟩ := w.rq
      refine ⟨_, hst _ (semaphore_signal_releases s h t sem q rq cb hv hsem hle hcons hcb hrq),
        ?_, le_refl _, fun _ _ => rfl, ?_⟩
      · refine WF.set_rq (WF.set_cb (WF.set_sem (WF.set_sem w h _ (by exact hq)) h _ ?_) _ _) _ ?_
        · intro x hx
          exact hq x (by simp only [hcons, List.mem_cons]; exact Or.inr hx)
        · intro x hx
          simp only [List.mem_append, List.mem_singleton] at hx
          rcases hx with hx | hx
          · exact hrqr x hx
          · subst hx
            exact ht
      · intro h' sem' hv' hsem'
        have hsame : ∀ x, sem_at
            { set_cb (set_sem (set_sem s h { sem with count := wrap_int (sem.count + 1) }) h
                { sem with count := wrap_int (sem.count + 1), wait_queue := q }) t
                { cb with state := .RUNNABLE } with run_queue := some (rq ++ [t]) } x
            = sem_at (set_sem (set_sem s h { sem with count := wrap_int (sem.count + 1) }) h
                { sem with count := wrap_int (sem.count + 1), wait_queue := q }) x :=
          fun _ => rfl
        by_cases he : h' = h
        · subst he
          rw [hsem] at hsem'
          cases hsem'
          refine ⟨{ sem with count := wrap_int (sem.count + 1), wait_queue := q },
            by rw [hsame]; exact sem_at_set_sem_same _ _ hr, rfl, ?_, ?_⟩
          · simp
          · simp [hle, hne, hcons]
        · refine ⟨sem', ?_, rfl, ?_, ?_⟩
          · rw [hsame, sem_at_set_sem_ne _ _ he, sem_at_set_sem_ne _ _ he, hsem']
          · simp [Ne.symm he]
          · simp [Ne.symm he]
    · have hidle : 0 < wrap_int (sem.count + 1) ∨ sem.wait_queue = [] := by
        by_cases hp : 0 < wrap_int (sem.count + 1)
        · exact Or.inl hp
        · right
          by_contra hne
          exact hrel ⟨not_lt.mp hp, hne⟩
      refine ⟨_, hst _ (semaphore_signal_idle s h sem hv hsem hidle),
        WF.set_sem w h _ (by exact hq), le_refl _, fun _ _ => rfl, ?_⟩
      intro h' sem' hv' hsem'
      by_cases he : h' = h
      · subst he
        rw [hsem] at hsem'
        cases hsem'
        refine ⟨_, sem_at_set_sem_same _ _ hr, rfl, ?_, ?_⟩
        · simp
        · simp [hrel]
      · refine ⟨sem', ?_, rfl, ?_, ?_⟩
        · rw [sem_at_set_sem_ne _ _ he, hsem']
        · simp [Ne.symm he]
        · simp [Ne.symm he]
  · have hge : h ≥ s.sem_count := not_lt.mp hv
    refine ⟨s, hst s (by simp [semaphore_signal, hge]), w, le_refl _, fun _ _ => rfl, ?_⟩
    intro h' sem' hv' hsem'
    have he : h ≠ h' := by omega
    exact ⟨sem', hsem', rfl, by simp [he], by simp [he]⟩

theorem step_ok_switch (E : Env) (s : Sched) (w : WF s) :
    ∃ s', (step E .switch s).state = some s' ∧ WF s' ∧ SemEffect .switch s s' := by
  have hst : step E .switch s = switch_thread s := rfl
  have hno : ∀ x : Sched, (Op.switch ≠ Op.switch → Op.switch ≠ Op.run →
      x.current_tid = s.current_tid) := fun _ h => absurd rfl h
  obtain ⟨rq, hrq, hrqr⟩ := w.rq
  cases rq with
  | nil =>
    exact ⟨s, state_of_done (hst.trans (switch_thread_empty s hrq)), w,
      SemEffect_of_same rfl rfl (hno s) (fun _ => by simp) (fun _ => by simp)⟩
  | cons next rest =>
    have hn : 0 ≤ next ∧ next < s.tid_count := hrqr next (by simp)
    have hrest : ∀ t ∈ rest, 0 ≤ t ∧ t < s.tid_count := fun t ht => hrqr t (by simp [ht])
    by_cases hmain : s.current_tid = MAIN_TID
    · obtain ⟨cb, hcb⟩ := w.cb_at hn.1 hn.2
      refine ⟨_, state_of_swap (hst.trans (switch_thread_from_main s next rest cb hrq hmain hcb)), ?_,
        SemEffect_of_same rfl rfl (hno _) (fun _ => by simp) (fun _ => by simp)⟩
      exact WF.set_cur (WF.set_cb (WF.set_rq w rest hrest) _ _) next (Or.inr hn)
    · have hcur := w.current_fiber hmain
      obtain ⟨cbc, hcbc⟩ := w.cb_at hcur.1 hcur.2
      have w1 : WF (set_cb s s.current_tid { cbc with state := .RUNNABLE }) := WF.set_cb w _ _
      obtain ⟨cb, hcb⟩ := w1.cb_at hn.1 hn.2
      refine ⟨_, state_of_swap
          (hst.trans (switch_thread_from_fiber s next rest cbc cb hrq hmain hcbc hcb)),
        ?_, SemEffect_of_same rfl rfl (hno _) (fun _ => by simp) (fun _ => by simp)⟩
      refine WF.set_cur (WF.set_cb (WF.set_rq w1 (rest ++ [s.current_tid]) ?_) _ _) next
        (Or.inr hn)
      intro x hx
      simp only [List.mem_append, List.mem_singleton] at hx
      rcases hx with hx | hx
      · exact hrest x hx
      · subst hx
        exact hcur

theorem thread_exit_swaps (s : Sched) (cb : thread_control_block)
    (hcb : cb_at s s.current_tid = some cb) :
    thread_exit s = .swap (set_cb s s.current_tid { cb with state := .EXIT }) := by
  simp [thread_exit, hcb, context_swap]

theorem step_ok_exit (E : Env) (s : Sched) (w : WF s) (hok : Op.exit.ok E s) :
    ∃ s', (step E .exit s).state = some s' ∧ WF s' ∧ SemEffect .exit s s' := by
  have hmain : s.current_tid ≠ MAIN_TID := hok
  have hcur := w.current_fiber hmain
  obtain ⟨cb, hcb⟩ := w.cb_at hcur.1 hcur.2
  have hst : step E .exit s = thread_exit s := rfl
  refine ⟨set_cb s s.current_tid { cb with state := .EXIT }, ?_, WF.set_cb w _ _,
    SemEffect_of_same rfl rfl (fun _ _ => rfl) (fun _ => by simp) (fun _ => by simp)⟩
  rw [hst, thread_exit_swaps s cb hcb]
  rfl

theorem step_ok_create (E : Env) (s : Sched) (nm : List Char) (f : Nat) (sz : Int) (w : WF s)
    (hok : (Op.create nm f sz).ok E s) :
    ∃ s', (step E (.create nm f sz) s).state = some s' ∧ WF s' ∧
      SemEffect (.create nm f sz) s s' := by
  by_cases hfull : s.tid_count ≥ MAX_THREADS
  · refine ⟨{ s with thread_errno := .ERR_THREAD_MAX }, ?_,
      ⟨w.rq, w.tids, w.cbs, w.cur, w.sems, w.live⟩,
      SemEffect_of_same rfl rfl (fun _ _ => rfl) (fun _ => by simp) (fun _ => by simp)⟩
    simp [step, thread_create, hfull, Outcome.ofOption, Outcome.state]
  · have hlt : s.tid_count < MAX_THREADS := not_le.mp hfull
    have hsz : E.MIN_STACK ≤ sz := by
      rcases hok with hc | hc
      · exact absurd hc hfull
      · exact hc
    obtain ⟨rq, hrq, hrqr⟩ := w.rq
    refine ⟨{ set_cb s s.tid_count
          { thread_name := nm.take (E.THREAD_NAME_LEN - 1), state := .RUNNABLE, func := f,
            stack_size := sz } with
        run_queue := some (rq ++ [s.tid_count]), tid_count := s.tid_count + 1 }, ?_, ?_,
      SemEffect_of_same rfl rfl (fun _ _ => rfl) (fun _ => by simp) (fun _ => by simp)⟩
    · simp only [step, thread_create_fresh E s nm f sz rq w.tids.1 hlt hrq hsz,
        Option.map_some', Outcome.ofOption, Outcome.state]
    · have h0 := w.tids.1
      refine ⟨⟨_, rfl, ?_⟩, ⟨by show 0 ≤ s.tid_count + 1; omega,
        by show s.tid_count + 1 ≤ MAX_THREADS; omega⟩, ?_, ?_, w.sems, ?_⟩
      · intro t ht
        show 0 ≤ t ∧ t < s.tid_count + 1
        simp only [List.mem_append, List.mem_singleton] at ht
        rcases ht with ht | ht
        · have := hrqr t ht
          omega
        · omega
      · intro t ht0 ht1
        by_cases he : t = s.tid_count
        · exact ⟨_, if_pos he⟩
        · have ht1 : t < s.tid_count + 1 := ht1
          obtain ⟨c, hc⟩ := w.cbs t ht0 (by omega)
          exact ⟨c, by simp [Thread.set_cb, he, hc]⟩
      · show s.current_tid = MAIN_TID ∨ (0 ≤ s.current_tid ∧ s.current_tid < s.tid_count + 1)
        rcases w.cur with hc | hc
        · exact Or.inl hc
        · exact Or.inr ⟨hc.1, by omega⟩
      · intro h hh0 hh1
        obtain ⟨sem, hs, hq⟩ := w.live h hh0 hh1
        refine ⟨sem, hs, ?_⟩
        intro t ht
        show 0 ≤ t ∧ t < s.tid_count + 1
        have := hq t ht
        omega

theorem step_ok_new_sem (E : Env) (s : Sched) (v : Int) (w : WF s)
    (hok : (Op.new_sem v).ok E s) :
    ∃ s', (step E (.new_sem v) s).state = some s' ∧ WF s' ∧ SemEffect (.new_sem v) s s' := by
  have hroom : s.sem_count < MAX_SEMAPHORES := hok
  have h0 := w.sems.1
  refine ⟨{ set_sem s s.sem_count { init := v, count := v, wait_queue := queue_create } with
      sem_count := s.sem_count + 1 }, ?_, ?_, ?_, fun _ _ => rfl, ?_⟩
  · simp [step, create_semaphore, h0, hroom, Outcome.ofOption, Outcome.state]
  · refine ⟨w.rq, w.tids, w.cbs, w.cur, ⟨by show 0 ≤ s.sem_count + 1; omega,
      by show s.sem_count + 1 ≤ MAX_SEMAPHORES; omega⟩, ?_⟩
    intro h hh0 hh1
    have hh1 : h < s.sem_count + 1 := hh1
    by_cases he : h = s.sem_count
    · exact ⟨_, if_pos he, by simp [queue_create]⟩
    · obtain ⟨sem, hs, hq⟩ := w.live h hh0 (by omega)
      exact ⟨sem, by simp [Thread.set_sem, he, hs], hq⟩
  · show s.sem_count ≤ s.sem_count + 1
    omega
  · intro h sem hv hsem
    have he : h ≠ s.sem_count := by omega
    refine ⟨sem, ?_, rfl, by simp, by simp⟩
    have : sem_at { set_sem s s.sem_count { init := v, count := v, wait_queue := queue_create }
        with sem_count := s.sem_count + 1 } h
        = sem_at (set_sem s s.sem_count { init := v, count := v, wait_queue := queue_create }) h :=
      rfl
    rw [this, sem_at_set_sem_ne _ _ he, hsem]

/-- Every call that satisfies `Op.ok` on a well-formed state makes no memory-unsafe
access: it returns or enters `context_swap`, the bookkeeping it wrote is well-formed
and has the semaphore effect `SemEffect`. -/
theorem step_ok (E : Env) (op : Op) (s : Sched) (w : WF s) (hok : op.ok E s) :
    ∃ s', (step E op s).state = some s' ∧ WF s' ∧ SemEffect op s s' := by
  cases op with
  | init =>
    exact ⟨_, rfl, WF.set_rq w [] (by simp),
      SemEffect_of_same rfl rfl (fun _ _ => rfl) (fun _ => by simp) (fun _ => by simp)⟩
  | create nm f sz => exact step_ok_create E s nm f sz w hok
  | exit => exact step_ok_exit E s w hok
  | run =>
    exact ⟨_, rfl, ⟨w.rq, w.tids, w.cbs, Or.inl rfl, w.sems, w.live⟩,
      SemEffect_of_same rfl rfl (fun _ h => absurd rfl h) (fun _ => by simp) (fun _ => by simp)⟩
  | quantum n =>
    exact ⟨_, rfl, ⟨w.rq, w.tids, w.cbs, w.cur, w.sems, w.live⟩,
      SemEffect_of_same rfl rfl (fun _ _ => rfl) (fun _ => by simp) (fun _ => by simp)⟩
  | new_sem v => exact step_ok_new_sem E s v w hok
  | wait h => exact step_ok_wait E s h w hok
  | signal h => exact step_ok_signal E s h w hok
  | destroy h => exact absurd hok (by simp [Op.ok])
  | switch => exact step_ok_switch E s w

/-! ## The count and wait-queue invariant of a semaphore -/

theorem exec_swap_first (E : Env) (op : Op) (ops : List Op) (s x : Sched)
    (h : step E op s = .swap x) :
    exec E (op :: ops) s = .swap x ∧ performed E (op :: ops) s = [op] := by
  simp [exec, performed, h]

/-- C7: evaluation at the failing input.  In a state with `current_tid = MAIN_TID` whose
run queue is `t0 :: rest` with `t0` a created fiber, `k ≥ 1` consecutive `switch_thread`
calls do not get past the first one: it selects `t0` (`current_tid = t0`, run queue
`rest`) and enters `context_swap`, from where nothing is defined; only that one call is
made, so for `k ≥ 2` no second fiber is ever selected. -/
theorem round_robin_stops (E : Env) (s : Sched) (t0 : Int) (rest : Queue)
    (cb : thread_control_block) (hmain : s.current_tid = MAIN_TID)
    (hrq : s.run_queue = some (t0 :: rest)) (hcb : cb_at s t0 = some cb)
    (k : Nat) (hk : 1 ≤ k) :
    ∃ s', exec E (List.replicate k .switch) s = .swap s' ∧
      performed E (List.replicate k .switch) s = [.switch] ∧
      s'.current_tid = t0 ∧ s'.run_queue = some rest ∧ state_of s' t0 = some .RUNNING := by
  obtain ⟨j, rfl⟩ : ∃ j, k = j + 1 := ⟨k - 1, by omega⟩
  obtain ⟨hr, -⟩ := cb_at_range hcb
  have hstep : step E .switch s = .swap
      { set_cb { s with run_queue := some rest } t0 { cb with state := .RUNNING } with
        current_tid := t0 } := switch_thread_from_main s t0 rest cb hrq hmain hcb
  obtain ⟨h1, h2⟩ := exec_swap_first E .switch (List.replicate j .switch) s _ hstep
  refine ⟨_, h1, h2, rfl, rfl, ?_⟩
  simp [state_of, cb_at, set_cb, hr]

/-- The witness for C7: in `demo_two` the main context is current and the run queue is
`[0, 1]`; of two consecutive `switch_thread` calls only the first is made, and it
enters `context_swap` with fiber `0` selected. -/
theorem round_robin_stops_witness :
    demo_two.current_tid = MAIN_TID ∧ demo_two.run_queue = some [0, 1] ∧
    cb_at demo_two 0 =
      some { thread_name := ['a'], state := .RUNNABLE, func := 1, stack_size := 4096 } ∧
    1 ≤ 2 ∧
    ∃ s', exec demo_env [.switch, .switch] demo_two = .swap s' ∧
      performed demo_env [.switch, .switch] demo_two = [.switch] ∧ s'.current_tid = 0 :=
  ⟨by decide, by decide, by decide, by decide, by
    obtain ⟨s', h1, h2, h3, -⟩ :=
      round_robin_stops demo_env demo_two 0 [1]
        { thread_name := ['a'], state := .RUNNABLE, func := 1, stack_size := 4096 }
        (by decide) (by decide) (by decide) 2 (by decide)
    exact ⟨s', h1, h2, h3⟩⟩

/-! ## Semaphore handles -/

/-- C12: evaluation at the failing input.  With `sem_count = MAX_SEMAPHORES`,
`create_semaphore` performs no capacity check: it goes on to store the new semaphore
at `sem_table[sem_count]`, an index outside the array, which the embedding reports as
`none`.  No error is reported and `ERR_SEM_MAX` is never used. -/
theorem create_semaphore_at_capacity (s : Sched) (value : Int)
    (hfull : s.sem_count = MAX_SEMAPHORES) : create_semaphore s value = none := by
  simp [create_semaphore, hfull]

/-- The witness for C12: after 100 calls of `create_semaphore` the table is full and the
next call stores outside it. -/
theorem create_semaphore_at_capacity_witness :
    demo_sem_full.sem_count = MAX_SEMAPHORES ∧ create_semaphore demo_sem_full 7 = none :=
  ⟨rfl, create_semaphore_at_capacity demo_sem_full 7 rfl⟩

theorem semaphore_wait_negative (s : Sched) (h : Int) (hneg : h < 0) (h0 : 0 ≤ s.sem_count) :
    semaphore_wait s h = .fault := by
  have hlt : ¬ (h ≥ s.sem_count) := by omega
  have hr : ¬ (0 ≤ h ∧ h < MAX_SEMAPHORES) := by omega
  simp [semaphore_wait, hlt, sem_at, hr]

theorem semaphore_signal_negative (s : Sched) (h : Int) (hneg : h < 0) (h0 : 0 ≤ s.sem_count) :
    semaphore_signal s h = none := by
  have hlt : ¬ (h ≥ s.sem_count) := by omega
  have hr : ¬ (0 ≤ h ∧ h < MAX_SEMAPHORES) := by omega
  simp [semaphore_signal, hlt, sem_at, hr]

/-- C13: evaluation at the failing input.  A handle `h ≥ sem_count` is refused by the
guard `semaphore >= sem_count` and both calls return with the state unchanged; a
negative handle passes that guard and both calls read `sem_table[h]` outside the array,
which the embedding reports as `Outcome.fault` and `none`. -/
theorem invalid_handle (s : Sched) (h : Int) :
    (s.sem_count ≤ h → semaphore_wait s h = .done s ∧ semaphore_signal s h = some s) ∧
    (h < 0 → 0 ≤ s.sem_count →
      semaphore_wait s h = .fault ∧ semaphore_signal s h = none) := by
  refine ⟨?_, ?_⟩
  · intro hge
    simp [semaphore_wait, semaphore_signal, hge]
  · intro hneg h0
    exact ⟨semaphore_wait_negative s h hneg h0, semaphore_signal_negative s h hneg h0⟩

/-- The witness for C13: in `demo_sem` (one semaphore) handle 5 is refused and
handle -1 is looked up outside the table. -/
theorem invalid_handle_witness :
    (demo_sem.sem_count ≤ 5 ∧ (-1 : Int) < 0 ∧ 0 ≤ demo_sem.sem_count) ∧
    (semaphore_wait demo_sem 5 = .done demo_sem ∧
      semaphore_signal demo_sem 5 = some demo_sem) ∧
    (semaphore_wait demo_sem (-1) = .fault ∧ semaphore_signal demo_sem (-1) = none) :=
  ⟨⟨by decide, by decide, by decide⟩,
   (invalid_handle demo_sem 5).1 (by decide),
   (invalid_handle demo_sem (-1)).2 (by decide) (by decide)⟩

/-! ## destroy_semaphore -/

theorem semaphore_wait_console (s : Sched) (c : List Msg) (h : Int) :
    semaphore_wait { s with console := c } h =
      (semaphore_wait s h).map (fun x => { x with console := c }) := by
  have e1 : sem_at { s with console := c } h = sem_at s h := rfl
  unfold semaphore_wait
  by_cases hv : h ≥ s.sem_count
  · simp [hv, Outcome.map]
  · simp only [hv, if_false, e1]
    cases hsem : sem_at s h with
    | none => rfl
    | some sem =>
      simp only []
      by_cases hneg : wrap_int (sem.count - 1) < 0
      · simp only [hneg, if_true]
        have e2 : cb_at (set_sem { s with console := c } h { sem with count := wrap_int (sem.count - 1) })
            (set_sem { s with console := c } h { sem with count := wrap_int (sem.count - 1) }).current_tid
            = cb_at (set_sem s h { sem with count := wrap_int (sem.count - 1) })
                (set_sem s h { sem with count := wrap_int (sem.count - 1) }).current_tid := rfl
        rw [e2]
        cases hcb : cb_at (set_sem s h { sem with count := wrap_int (sem.count - 1) })
            (set_sem s h { sem with count := wrap_int (sem.count - 1) }).current_tid with
        | none => rfl
        | some cb => rfl
      · simp only [hneg, if_false]
        rfl

theorem semaphore_signal_console (s : Sched) (c : List Msg) (h : Int) :
    semaphore_signal { s with console := c } h =
      (semaphore_signal s h).map (fun x => { x with console := c }) := by
  have e1 : sem_at { s with console := c } h = sem_at s h := rfl
  unfold semaphore_signal
  by_cases hv : h ≥ s.sem_count
  · simp [hv]
  · simp only [hv, if_false, e1]
    cases hsem : sem_at s h with
    | none => rfl
    | some sem =>
      simp only []
      by_cases hle : wrap_int (sem.count + 1) ≤ 0
      · simp only [hle, if_true]
        by_cases hsz : queue_size sem.wait_queue ≤ 0
        · simp only [hsz, if_true]
          rfl
        · simp only [hsz, if_false]
          cases hdq : dequeue sem.wait_queue with
          | none => rfl
          | some p =>
            obtain ⟨tid, q⟩ := p
            simp only []
            have e2 : ∀ x y, cb_at (set_sem (set_sem { s with console := c } h x) h y) tid
                = cb_at s tid := fun _ _ => rfl
            have e3 : ∀ x y, cb_at (set_sem (set_sem s h x) h y) tid = cb_at s tid :=
              fun _ _ => rfl
            rw [e2, e3]
            cases hcb : cb_at s tid with
            | none => rfl
            | some cb =>
              simp only []
              have e4 : ∀ x y z, (set_cb (set_sem (set_sem { s with console := c } h x) h y)
                  tid z).run_queue = s.run_queue := fun _ _ _ => rfl
              have e5 : ∀ x y z, (set_cb (set_sem (set_sem s h x) h y) tid z).run_queue
                  = s.run_queue := fun _ _ _ => rfl
              rw [e4, e5]
              cases hrq : s.run_queue with
              | none => rfl
              | some rq => rfl
      · simp only [hle, if_false]
        rfl

theorem destroy_semaphore_busy (s : Sched) (h : Int) (sem : sem_t)
    (hvalid : h < s.sem_count) (hsem : sem_at s h = some sem) (hbusy : sem.wait_queue ≠ []) :
    destroy_semaphore s h = some { s with console := s.console ++ [.error_waiting h] } := by
  have hsz : queue_size sem.wait_queue > 0 := by
    have := List.length_pos.mpr hbusy
    simp only [queue_size]
    omega
  simp [destroy_semaphore, not_le.mpr hvalid, hsem, hsz]

/-- C14: `destroy_semaphore` on a valid handle `h` (below `sem_count`, live semaphore
`sem`) whose wait queue is not empty returns after printing the error line for `h` and
changes nothing else: the semaphore keeps its count, initial value and wait queue,
`sem_count`, both tables, the run queue, `current_tid` and `tid_count` are unchanged.
The handle stays usable: later `semaphore_wait` and `semaphore_signal` calls on any
handle do exactly what they would have done without the refused call. -/
theorem destroy_semaphore_refuses_busy (s : Sched) (h : Int) (sem : sem_t)
    (hvalid : h < s.sem_count) (hsem : sem_at s h = some sem) (hbusy : sem.wait_queue ≠ []) :
    ∃ s', destroy_semaphore s h = some s' ∧
      s'.console = s.console ++ [.error_waiting h] ∧
      sem_at s' h = some sem ∧ s'.sem_count = s.sem_count ∧
      s'.sem_table = s.sem_table ∧ s'.cb_table = s.cb_table ∧
      s'.run_queue = s.run_queue ∧ s'.current_tid = s.current_tid ∧
      s'.tid_count = s.tid_count ∧
      (∀ h', semaphore_wait s' h' =
        (semaphore_wait s h').map (fun x => { x with console := s'.console })) ∧
      (∀ h', semaphore_signal s' h' =
        (semaphore_signal s h').map (fun x => { x with console := s'.console })) :=
  ⟨_, destroy_semaphore_busy s h sem hvalid hsem hbusy, rfl, hsem, rfl, rfl, rfl, rfl, rfl, rfl,
    fun h' => semaphore_wait_console s _ h', fun h' => semaphore_signal_console s _ h'⟩

/-- The witness for C14: in `demo_blocked` fiber `0` waits on semaphore `0`; destroying
it is refused and a later signal still releases fiber `0`. -/
theorem destroy_semaphore_refuses_busy_witness :
    (0 : Int) < demo_blocked.sem_count ∧
    sem_at demo_blocked 0 = some { init := 0, count := -1, wait_queue := [0] } ∧
    ([0] : Queue) ≠ [] ∧
    ∃ s', destroy_semaphore demo_blocked 0 = some s' ∧
      s'.console = [.error_waiting 0] ∧
      sem_at s' 0 = some { init := 0, count := -1, wait_queue := [0] } ∧
      (semaphore_signal s' 0).map (fun x => (count_of x 0, x.run_queue))
        = some (some 0, some [0, 1, 0]) :=
  ⟨by decide, by decide, by decide, by
    obtain ⟨s', h1, h2, h3, -, -, -, -, -, -, -, h4⟩ :=
      destroy_semaphore_refuses_busy demo_blocked 0
        { init := 0, count := -1, wait_queue := [0] } (by decide) (by decide) (by decide)
    refine ⟨s', h1, h2, h3, ?_⟩
    rw [h4 0]
    rfl⟩

/-- C15: evaluation at the failing input.  `destroy_semaphore` on a valid handle `h` with an
empty wait queue returns (also when `count != init`), releases the semaphore and leaves
`sem_table[h]` pointing at the released memory with `sem_count` unchanged, every other
slot untouched.  The handle is therefore still below `sem_count`: a later
`semaphore_wait(h)`, `semaphore_signal(h)` or `destroy_semaphore(h)` passes the guard
and reads the released semaphore, which the embedding reports as `Outcome.fault` and
`none`. -/
theorem destroy_semaphore_dangling (s : Sched) (h : Int) (sem : sem_t)
    (hvalid : h < s.sem_count) (hsem : sem_at s h = some sem) (hidle : sem.wait_queue = []) :
    ∃ s', destroy_semaphore s h = some s' ∧ s'.sem_count = s.sem_count ∧
      s'.sem_table h = .freed ∧ (∀ h', h' ≠ h → s'.sem_table h' = s.sem_table h') ∧
      semaphore_wait s' h = .fault ∧ semaphore_signal s' h = none ∧
      destroy_semaphore s' h = none := by
  have hsz : ¬ (queue_size sem.wait_queue > 0) := by simp [queue_size, hidle]
  have hge : ¬ (h ≥ s.sem_count) := not_le.mpr hvalid
  by_cases hc : sem.count ≠ sem.init
  · refine ⟨{ s with console := s.console ++ [.warning_not_signalled h],
                     sem_table := fun i => if i = h then .freed else s.sem_table i }, ?_,
      rfl, by simp, fun h' hne => by simp [hne], ?_, ?_, ?_⟩
    · simp [destroy_semaphore, hge, hsem, hsz, hc]
    · simp [semaphore_wait, hge, sem_at]
    · simp [semaphore_signal, hge, sem_at]
    · simp [destroy_semaphore, hge, sem_at]
  · refine ⟨{ s with sem_table := fun i => if i = h then .freed else s.sem_table i }, ?_,
      rfl, by simp, fun h' hne => by simp [hne], ?_, ?_, ?_⟩
    · simp [destroy_semaphore, hge, hsem, hsz, hc]
    · simp [semaphore_wait, hge, sem_at]
    · simp [semaphore_signal, hge, sem_at]
    · simp [destroy_semaphore, hge, sem_at]

/-- The witness for C15: semaphore `0` of `demo_sem` (value 1, nobody waiting) is
destroyed; the handle still passes the guard and later calls read released memory. -/
theorem destroy_semaphore_dangling_witness :
    (0 : Int) < demo_sem.sem_count ∧
    sem_at demo_sem 0 = some { init := 1, count := 1, wait_queue := [] } ∧
    ∃ s', destroy_semaphore demo_sem 0 = some s' ∧ s'.sem_count = 1 ∧
      semaphore_wait s' 0 = .fault ∧ semaphore_signal s' 0 = none ∧
      destroy_semaphore s' 0 = none :=
  ⟨by decide, by decide, by
    obtain ⟨s', h1, h2, -, -, h3, h4, h5⟩ :=
      destroy_semaphore_dangling demo_sem 0 { init := 1, count := 1, wait_queue := [] }
        (by decide) (by decide) rfl
    exact ⟨s', h1, h2, h3, h4, h5⟩⟩

/-! ## The semaphore scenario -/

/-- C16: evaluation at the failing input.  After `thread_init`, `run_threads`, the creation
of fibers A = `0` and B = `1` and of semaphore `0` with value 1, the first call of the
scenario, `switch_thread`, selects A and enters `context_swap`; nothing is defined from
there on.  Of the five calls of the scenario only that one is made: A's wait never
takes place and the count is still 1.  The same holds without `run_threads`. -/
theorem semaphore_scenario_stops :
    ((exec demo_env scenario_setup_run boot).returned.map
        (fun s => (s.current_tid, s.run_queue, count_of s 0))
       = some (-1, some [0, 1], some 1) ∧
     (exec demo_env (scenario_setup_run ++ scenario_calls) boot).returned.isNone = true ∧
     (exec demo_env (scenario_setup_run ++ scenario_calls) boot).entered_swap.map
        (fun s => (s.current_tid, state_of s 0, count_of s 0, wait_queue_of s 0))
       = some (0, some .RUNNING, some 1, some []) ∧
     performed demo_env (scenario_setup_run ++ scenario_calls) boot
       = scenario_setup_run ++ [.switch]) ∧
    ((exec demo_env (scenario_setup ++ scenario_calls) boot).returned.isNone = true ∧
     (exec demo_env (scenario_setup ++ scenario_calls) boot).entered_swap.map
        (fun s => (s.current_tid, state_of s 0, count_of s 0, wait_queue_of s 0))
       = some (0, some .RUNNING, some 1, some []) ∧
     performed demo_env (scenario_setup ++ scenario_calls) boot
       = scenario_setup ++ [.switch]) := by
  exact ⟨⟨rfl, rfl, rfl, rfl⟩, ⟨rfl, rfl, rfl⟩⟩

/-! ## The timer -/

theorem setitimer_100 (old : Option itimerval) :
    setitimer old { interval_sec := 0, interval_usec := 100, value_sec := 0, value_usec := 100 }
      = some { interval_sec := 0, interval_usec := 100, value_sec := 0, value_usec := 100 } := by
  simp [setitimer]

/-- C17: evaluation at the failing input.  Whatever quantum `n` was configured before,
`run_threads` sets `current_tid = MAIN_TID`, installs the handler and calls
`set_quantum_size(100)`: afterwards the `tval` fields and the timer in force are 100
microseconds.  With `n = 50`: the timer in force is 50 after `set_quantum_size(50)` and
100, not 50, after `run_threads`. -/
theorem run_threads_ignores_quantum (s : Sched) (n : Int) :
    ((run_threads (set_quantum_size s n)).current_tid = MAIN_TID ∧
     (run_threads (set_quantum_size s n)).sigalrm_handler = true ∧
     (run_threads (set_quantum_size s n)).tval =
        { interval_sec := 0, interval_usec := 100, value_sec := 0, value_usec := 100 } ∧
     (run_threads (set_quantum_size s n)).itimer_real =
        some { interval_sec := 0, interval_usec := 100, value_sec := 0, value_usec := 100 }) ∧
    ((set_quantum_size s n).tval =
        { interval_sec := 0, interval_usec := n, value_sec := 0, value_usec := n }) ∧
    ((set_quantum_size (thread_init boot).2 50).itimer_real =
        some { interval_sec := 0, interval_usec := 50, value_sec := 0, value_usec := 50 } ∧
     (run_threads (set_quantum_size (thread_init boot).2 50)).itimer_real ≠
        some { interval_sec := 0, interval_usec := 50, value_sec := 0, value_usec := 50 }) := by
  refine ⟨⟨rfl, rfl, rfl, ?_⟩, rfl, by decide, by decide⟩
  exact setitimer_100 (set_quantum_size s n).itimer_real

/-! ## thread_exit -/

/-- C18: evaluation at the failing input.  `thread_exit` in a state where
`current_tid = c` is a created fiber (control block `cb`) never returns: it sets the
state of `c` to `EXIT` and enters `context_swap`, from where nothing is defined.  In the
bookkeeping at that point slot `c` holds the control block of `c` with state `EXIT`,
and `tid_count`, `current_tid`, every other control block, the run queue and every
semaphore are as before. -/
theorem thread_exit_frame (s : Sched) (c : Int) (cb : thread_control_block)
    (hcur : s.current_tid = c) (hcb : cb_at s c = some cb) :
    ∃ s', thread_exit s = .swap s' ∧
      cb_at s' c = some { cb with state := .EXIT } ∧ state_of s' c = some .EXIT ∧
      s'.tid_count = s.tid_count ∧ s'.current_tid = s.current_tid ∧
      (∀ t, t ≠ c → cb_at s' t = cb_at s t) ∧
      s'.run_queue = s.run_queue ∧
      s'.sem_table = s.sem_table ∧ s'.sem_count = s.sem_count := by
  subst hcur
  obtain ⟨hr, -⟩ := cb_at_range hcb
  refine ⟨set_cb s s.current_tid { cb with state := .EXIT }, thread_exit_swaps s cb hcb,
    ?_, ?_, rfl, rfl, ?_, rfl, rfl, rfl⟩
  · exact cb_at_set_cb_same _ _ hr
  · simp [state_of, cb_at_set_cb_same _ _ hr]
  · intro t hne
    exact cb_at_set_cb_ne _ _ hne

/-- The witness for C18: in `demo_fiber` fiber `0` is current; `thread_exit` enters
`context_swap` with fiber `0` marked `EXIT`. -/
theorem thread_exit_frame_witness :
    demo_fiber.current_tid = 0 ∧
    cb_at demo_fiber 0 =
      some { thread_name := ['a'], state := .RUNNABLE, func := 1, stack_size := 4096 } ∧
    ∃ s', thread_exit demo_fiber = .swap s' ∧ state_of s' 0 = some .EXIT ∧
      s'.run_queue = some [0, 1] ∧ s'.current_tid = 0 :=
  ⟨rfl, by decide, by
    obtain ⟨s', h1, -, h2, -, h3, -, h4, -⟩ :=
      thread_exit_frame demo_fiber 0
        { thread_name := ['a'], state := .RUNNABLE, func := 1, stack_size := 4096 }
        rfl (by decide)
    exact ⟨s', h1, h2, h4.trans rfl, h3.trans rfl⟩⟩

/-! ## Invariants of reachable states -/

theorem cb_at_ne_main {s : Sched} {t : Int} (h : ∃ cb, cb_at s t = some cb) : t ≠ MAIN_TID := by
  obtain ⟨cb, hcb⟩ := h
  obtain ⟨hr, -⟩ := cb_at_range hcb
  intro he
  rw [he] at hr
  exact absurd hr.1 (by decide)

theorem Reachable.book_calls {E : Env} (ops : List Op) :
    ∀ {s s' : Sched}, Reachable E s → running_calls E ops s → book E ops s = some s' →
      Reachable E s' := by
  induction ops with
  | nil =>
    intro s s' hr _ he
    simp only [book, Option.some.injEq] at he
    subst he
    exact hr
  | cons op ops ih =>
    intro s s' hr hc he
    obtain ⟨hc1, hc2⟩ := hc
    cases hs : (step E op s).state with
    | none => simp [book, hs] at he
    | some s1 =>
      rw [hs] at hc2
      simp only [book, hs, Option.some_bind] at he
      exact ih (Reachable.call op s s1 hr hc1 hs) hc2 he

theorem ok_of_running_call {E : Env} {op : Op} {s s' : Sched} (w : WF s)
    (hc : op.running_call s) (hs : (step E op s).state = some s') : op.ok E s := by
  cases op with
  | init => exact trivial
  | create nm f sz =>
    by_cases hfull : s.tid_count ≥ MAX_THREADS
    · exact Or.inl hfull
    · right
      by_contra hn
      have hlt : sz < E.MIN_STACK := not_le.mp hn
      simp [step, thread_create, hfull, hlt, Outcome.ofOption, Outcome.state] at hs
  | exit => exact hc
  | run => exact trivial
  | quantum n => exact trivial
  | new_sem v =>
    show s.sem_count < MAX_SEMAPHORES
    by_contra hn
    have hr : ¬ (0 ≤ s.sem_count ∧ s.sem_count < MAX_SEMAPHORES) := fun h => hn h.2
    simp [step, create_semaphore, hr, Outcome.ofOption, Outcome.state] at hs
  | wait h =>
    refine ⟨?_, hc⟩
    by_contra hn
    rw [show step E (.wait h) s = semaphore_wait s h from rfl,
      semaphore_wait_negative s h (not_le.mp hn) w.sems.1] at hs
    exact absurd hs (by simp [Outcome.state])
  | signal h =>
    show 0 ≤ h
    by_contra hn
    rw [show step E (.signal h) s = .ofOption (semaphore_signal s h) from rfl,
      semaphore_signal_negative s h (not_le.mp hn) w.sems.1] at hs
    exact absurd hs (by simp [Outcome.ofOption, Outcome.state])
  | destroy h => exact absurd hc (by simp [Op.running_call])
  | switch => exact trivial

/-- Every reachable state is well-formed. -/
theorem Reachable.wf {E : Env} {s : Sched} (hr : Reachable E s) : WF s := by
  induction hr with
  | start => exact WF_start
  | call op s s' _ hc hs ih =>
    obtain ⟨s'', hs', w', -⟩ := step_ok E op s ih (ok_of_running_call ih hc hs)
    rw [hs] at hs'
    cases hs'
    exact w'

theorem demo_running_reachable : Reachable demo_env demo_running :=
  Reachable.book_calls [.create ['a'] 1 4096, .create ['b'] 2 4096, .new_sem 0, .switch]
    Reachable.start (by decide) rfl

theorem state_of_ne_main {s : Sched} {t : Int} {x : ThreadState}
    (h : state_of s t = some x) : t ≠ MAIN_TID := by
  cases hcb : cb_at s t with
  | none => simp [state_of, hcb] at h
  | some cb => exact cb_at_ne_main ⟨cb, hcb⟩

theorem OnlyCurrentRuns.after_store {s : Sched} (hr : OnlyCurrentRuns s) (t0 : Int)
    (x : thread_control_block) (hx : x.state ≠ .RUNNING) :
    OnlyCurrentRuns (Thread.set_cb s t0 x) := by
  intro t ht
  by_cases he : t = t0
  · subst he
    exfalso
    simp only [state_of, cb_at, Thread.set_cb, if_true] at ht
    split at ht
    · simp only [Option.map_some', Option.some.injEq] at ht
      exact hx ht
    · simp at ht
  · apply hr t
    simpa [state_of, cb_at_set_cb_ne _ _ he] using ht

theorem OnlyCurrentRuns.none_after_yield {s : Sched} (hr : OnlyCurrentRuns s)
    (x : thread_control_block) (hx : x.state ≠ .RUNNING) (t : Int) :
    state_of (Thread.set_cb s s.current_tid x) t ≠ some .RUNNING := by
  intro ht
  have h1 := (hr.after_store s.current_tid x hx) t ht
  have h1 : t = s.current_tid := h1
  subst h1
  simp only [state_of, cb_at, Thread.set_cb, if_true] at ht
  split at ht
  · simp only [Option.map_some', Option.some.injEq] at ht
    exact hx ht
  · simp at ht

theorem OnlyCurrentRuns.none_at_main {s : Sched} (hr : OnlyCurrentRuns s)
    (hmain : s.current_tid = MAIN_TID) (t : Int) : state_of s t ≠ some .RUNNING := by
  intro ht
  have h1 := hr t ht
  rw [hmain] at h1
  exact state_of_ne_main ht h1

theorem OnlyCurrentRuns.switch_to {s s2 : Sched} (next : Int) (x : thread_control_block)
    (hnone : ∀ t, state_of s2 t ≠ some .RUNNING)
    (hs : s.cb_table = (Thread.set_cb s2 next x).cb_table) (hc : s.current_tid = next) :
    OnlyCurrentRuns s := by
  intro t ht
  by_cases he : t = next
  · rw [hc, he]
  · exfalso
    apply hnone t
    simpa [state_of, cb_at, hs, Thread.set_cb, he] using ht

/-- One call that is not `run_threads` keeps `OnlyCurrentRuns`, whether it returns or
enters `context_swap`. -/
theorem step_only_current_runs (E : Env) (op : Op) (s s' : Sched) (w : WF s)
    (hok : op.ok E s) (hnr : op ≠ .run) (hs : (step E op s).state = some s')
    (hr : OnlyCurrentRuns s) : OnlyCurrentRuns s' := by
  cases op with
  | init =>
    cases hs
    exact hr
  | create nm f sz =>
    by_cases hfull : s.tid_count ≥ MAX_THREADS
    · simp only [step, thread_create, hfull, if_true, Option.map_some', Outcome.ofOption,
        Outcome.state, Option.some.injEq] at hs
      subst hs
      exact hr
    · obtain ⟨rq, hrq, -⟩ := w.rq
      have hsz : E.MIN_STACK ≤ sz := by
        rcases hok with hc | hc
        · exact absurd hc hfull
        · exact hc
      simp only [step, thread_create_fresh E s nm f sz rq w.tids.1 (not_le.mp hfull) hrq hsz,
        Option.map_some', Outcome.ofOption, Outcome.state, Option.some.injEq] at hs
      subst hs
      exact hr.after_store s.tid_count _ (by simp)
  | exit =>
    have hmain : s.current_tid ≠ MAIN_TID := hok
    have hcur := w.current_fiber hmain
    obtain ⟨cb, hcb⟩ := w.cb_at hcur.1 hcur.2
    have hs : (thread_exit s).state = some s' := hs
    rw [thread_exit_swaps s cb hcb] at hs
    simp only [Outcome.state, Option.some.injEq] at hs
    subst hs
    exact hr.after_store s.current_tid _ (by simp)
  | run => exact absurd rfl hnr
  | quantum n =>
    cases hs
    exact hr
  | new_sem v =>
    have hroom : 0 ≤ s.sem_count ∧ s.sem_count < MAX_SEMAPHORES := ⟨w.sems.1, hok⟩
    simp only [step, create_semaphore, hroom, and_self, if_true, Option.map_some',
      Outcome.ofOption, Outcome.state, Option.some.injEq] at hs
    subst hs
    exact hr
  | wait h =>
    obtain ⟨h0, hmain⟩ := hok
    have hs : (semaphore_wait s h).state = some s' := hs
    by_cases hv : h < s.sem_count
    · obtain ⟨sem, hsem, -⟩ := w.sem_at h0 hv
      have hcur := w.current_fiber hmain
      obtain ⟨cb, hcb⟩ := w.cb_at hcur.1 hcur.2
      by_cases hneg : wrap_int (sem.count - 1) < 0
      · rw [semaphore_wait_blocks s h sem cb hv hsem hcb hneg] at hs
        simp only [Outcome.state, Option.some.injEq] at hs
        subst hs
        exact hr.after_store s.current_tid _ (by simp)
      · rw [semaphore_wait_passes s h sem hv hsem (not_lt.mp hneg)] at hs
        simp only [Outcome.state, Option.some.injEq] at hs
        subst hs
        exact hr
    · simp only [semaphore_wait, ge_iff_le, not_lt.mp hv, if_true, Outcome.state,
        Option.some.injEq] at hs
      subst hs
      exact hr
  | signal h =>
    have h0 : 0 ≤ h := hok
    have hs : (Outcome.ofOption (semaphore_signal s h)).state = some s' := hs
    by_cases hv : h < s.sem_count
    · obtain ⟨sem, hsem, hq⟩ := w.sem_at h0 hv
      by_cases hrel : wrap_int (sem.count + 1) ≤ 0 ∧ sem.wait_queue ≠ []
      · obtain ⟨hle, hne⟩ := hrel
        obtain ⟨t, q, hcons⟩ := List.exists_cons_of_ne_nil hne
        have ht : 0 ≤ t ∧ t < s.tid_count := hq t (by simp [hcons])
        obtain ⟨cb, hcb⟩ := w.cb_at ht.1 ht.2
        obtain ⟨rq, hrq, -⟩ := w.rq
        rw [semaphore_signal_releases s h t sem q rq cb hv hsem hle hcons hcb hrq] at hs
        simp only [Outcome.ofOption, Outcome.state, Option.some.injEq] at hs
        subst hs
        exact hr.after_store t _ (by simp)
      · have hidle : 0 < wrap_int (sem.count + 1) ∨ sem.wait_queue = [] := by
          by_cases hp : 0 < wrap_int (sem.count + 1)
          · exact Or.inl hp
          · right
            by_contra hne
            exact hrel ⟨not_lt.mp hp, hne⟩
        rw [semaphore_signal_idle s h sem hv hsem hidle] at hs
        simp only [Outcome.ofOption, Outcome.state, Option.some.injEq] at hs
        subst hs
        exact hr
    · simp only [semaphore_signal, ge_iff_le, not_lt.mp hv, if_true, Outcome.ofOption,
        Outcome.state, Option.some.injEq] at hs
      subst hs
      exact hr
  | destroy h => exact absurd hok (by simp [Op.ok])
  | switch =>
    have hs : (switch_thread s).state = some s' := hs
    obtain ⟨rq, hrq, hrqr⟩ := w.rq
    cases rq with
    | nil =>
      rw [switch_thread_empty s hrq] at hs
      simp only [Outcome.state, Option.some.injEq] at hs
      subst hs
      exact hr
    | cons next rest =>
      have hn : 0 ≤ next ∧ next < s.tid_count := hrqr next (by simp)
      by_cases hmain : s.current_tid = MAIN_TID
      · obtain ⟨cb, hcb⟩ := w.cb_at hn.1 hn.2
        rw [switch_thread_from_main s next rest cb hrq hmain hcb] at hs
        simp only [Outcome.state, Option.some.injEq] at hs
        subst hs
        exact OnlyCurrentRuns.switch_to next { cb with state := .RUNNING }
          (hr.none_at_main hmain) rfl rfl
      · have hcur := w.current_fiber hmain
        obtain ⟨cbc, hcbc⟩ := w.cb_at hcur.1 hcur.2
        have w1 : WF (Thread.set_cb s s.current_tid { cbc with state := .RUNNABLE }) :=
          WF.set_cb w _ _
        obtain ⟨cb, hcb⟩ := w1.cb_at hn.1 hn.2
        rw [switch_thread_from_fiber s next rest cbc cb hrq hmain hcbc hcb] at hs
        simp only [Outcome.state, Option.some.injEq] at hs
        subst hs
        exact OnlyCurrentRuns.switch_to next { cb with state := .RUNNING }
          (hr.none_after_yield { cbc with state := .RUNNABLE } (by simp)) rfl rfl

/-- C19: at most one fiber is `RUNNING` and it is the current one.  In every state
reachable from `thread_init` followed by `run_threads` through `thread_create`,
`switch_thread`, `semaphore_wait`, `semaphore_signal`, `thread_exit` (and
`create_semaphore`), with `semaphore_wait` and `thread_exit` called by the current
fiber, every fiber whose state is `RUNNING` has identifier `current_tid`; in
particular no fiber is `RUNNING` while `current_tid = MAIN_TID`. -/
theorem only_current_runs (E : Env) (s : Sched) (hr : Reachable E s) :
    (∀ t, state_of s t = some .RUNNING → t = s.current_tid) ∧
    (s.current_tid = MAIN_TID → ∀ t, state_of s t ≠ some .RUNNING) := by
  have key : OnlyCurrentRuns s := by
    induction hr with
    | start =>
      intro t ht
      exact absurd ht (by simp [state_of, cb_at, run_threads, set_quantum_size, thread_init,
        boot])
    | call op s s' hr' hc hs ih =>
      have w := hr'.wf
      have hnr : op ≠ .run := by
        intro he
        rw [he] at hc
        exact hc
      exact step_only_current_runs E op s s' w (ok_of_running_call w hc hs) hnr hs ih
  exact ⟨key, fun hmain => key.none_at_main hmain⟩

/-- The witness for C19: `demo_running` is reachable and its only `RUNNING` fiber is the
current fiber `0`. -/
theorem only_current_runs_witness :
    Reachable demo_env demo_running ∧ state_of demo_running 0 = some .RUNNING ∧
    demo_running.current_tid = 0 ∧
    ∀ t, state_of demo_running t = some .RUNNING → t = 0 :=
  ⟨demo_running_reachable, by decide, rfl,
    (only_current_runs demo_env demo_running demo_running_reachable).1⟩


end Thread
